import Mathlib

/-!
Verification development for the dpw die-per-wafer calculator.

The Python source computes with IEEE floats; this development embeds the
computation over exact rationals (ℚ), with real-number square roots where the
source calls `math.sqrt`.  Comparisons of the form `sqrt e <= c` that the
source performs are embedded as the equivalent sign-aware squared comparisons
so that the embedded engines stay executable; bridge lemmas relate each such
embedded comparison to the literal `Real.sqrt` form.

Embedded components (from `src/dpw/calculator.py` and
`src/src/dpw/optimized_calculator.py`):
  * `ValidationMethod`, `NotchType` enums
  * `WaferGeometry` / `OptimizedWaferGeometry`: point test, notch test, the
    four validation policies
  * `ExactGeometricCalculator`: exact rectangle/circle intersection area
    (over ℝ, as the source works with real square roots)
  * `DieCalculator.calculate_dies_per_wafer` (both the traditional full-grid
    enumeration and the `SpatialOptimizer` candidate pre-filtering path)
  * `OptimizedDieCalculator.calculate_dies_per_wafer` (eager input
    validation, quadrant-symmetric enumeration in the no-notch case, full
    enumeration in the notch case)
Reporting, visualization, CLI, caching statistics and timing metadata are out
of scope (per the spec) and are not modelled; the embedded engine results
carry the die counts and yield counts that the claims refer to.
-/

namespace DPW

/-- Python's `int(q)` on a float: truncation toward zero. -/
def pyInt (q : ℚ) : ℤ := if 0 ≤ q then ⌊q⌋ else ⌈q⌉

/-- Die validation methods (`ValidationMethod` enum in the source). -/
inductive Method where
  | center
  | corner
  | area
  | strict
deriving DecidableEq, Repr

/-- Wafer notch types (`NotchType` enum in the source). -/
inductive Notch where
  | none_
  | v90
  | flat
deriving DecidableEq, Repr

/-- Source `is_point_in_wafer`: `sqrt (x*x + y*y) <= effective_radius`.
Embedded by the equivalent squared comparison (the engines only construct
geometries with a positive effective radius, where the two agree;
see `isPointInWafer_iff_sqrt`). -/
def isPointInWafer (R x y : ℚ) : Bool := decide (x * x + y * y ≤ R * R)

/-- Bridge: for a nonnegative radius the squared comparison used in the
embedding agrees with the source's `sqrt (x*x+y*y) <= R`. -/
theorem isPointInWafer_iff_sqrt (R x y : ℚ) (hR : 0 ≤ R) :
    isPointInWafer R x y = true ↔
      Real.sqrt ((x : ℝ) * x + y * y) ≤ (R : ℝ) := by
  rw [isPointInWafer, decide_eq_true_eq,
    Real.sqrt_le_left (show (0 : ℝ) ≤ (R : ℝ) by exact_mod_cast hR), sq]
  constructor <;> intro h <;> exact_mod_cast h

/-- Meaning of `a <= sqrt K` for rationals, used to embed the flat-notch
half-width comparisons (K is the radicand `2*r*d - d*d`). -/
def leSqrt (a K : ℚ) : Bool := decide (a ≤ 0 ∨ a * a ≤ K)

/-- Meaning of `-sqrt K <= a` for rationals. -/
def negSqrtLe (a K : ℚ) : Bool := decide (0 ≤ a ∨ a * a ≤ K)

/-- Bridge: `leSqrt` agrees with the literal real comparison when the
radicand is nonnegative. -/
theorem leSqrt_iff (a K : ℚ) (hK : 0 ≤ K) :
    leSqrt a K = true ↔ (a : ℝ) ≤ Real.sqrt (K : ℝ) := by
  rw [leSqrt, decide_eq_true_eq]
  constructor
  · rintro (h | h)
    · exact le_trans (by exact_mod_cast h) (Real.sqrt_nonneg _)
    · calc (a : ℝ) ≤ |(a : ℝ)| := le_abs_self _
        _ = Real.sqrt ((a : ℝ) ^ 2) := (Real.sqrt_sq_eq_abs _).symm
        _ ≤ Real.sqrt (K : ℝ) := Real.sqrt_le_sqrt (by rw [sq]; exact_mod_cast h)
  · intro h
    by_cases ha : a ≤ 0
    · exact Or.inl ha
    · right
      push_neg at ha
      have h2 : (a : ℝ) ^ 2 ≤ Real.sqrt (K : ℝ) ^ 2 := by
        apply pow_le_pow_left₀ (by exact_mod_cast ha.le) h
      rw [Real.sq_sqrt (by exact_mod_cast hK)] at h2
      rw [sq] at h2
      exact_mod_cast h2

/-- Bridge: `negSqrtLe` agrees with the literal real comparison when the
radicand is nonnegative. -/
theorem negSqrtLe_iff (a K : ℚ) (hK : 0 ≤ K) :
    negSqrtLe a K = true ↔ -Real.sqrt (K : ℝ) ≤ (a : ℝ) := by
  rw [show (negSqrtLe a K) = leSqrt (-a) K by
        simp [negSqrtLe, leSqrt, neg_mul_neg, neg_nonpos]]
  rw [leSqrt_iff (-a) K hK]
  push_cast
  constructor <;> intro h <;> linarith

/-- Source `_is_rectangle_intersecting_notch` (identical in both calculator
variants).  `rw` is the uncut wafer radius, `d` the notch depth, the
rectangle has center `(cx, cy)` and dimensions `w × h`.  The source names
`rect_bottom = center_y + height/2`; the flat case compares against
`sqrt (2*r*d - d*d)`, embedded via `leSqrt`/`negSqrtLe`. -/
def rectIntersectsNotch (nt : Notch) (rw d cx cy w h : ℚ) : Bool :=
  match nt with
  | .none_ => false
  | .v90 =>
      let notchY := rw - d
      let notchHalfWidth := d
      decide (notchY ≤ cy + h / 2) && decide (cx - w / 2 ≤ notchHalfWidth) &&
        decide (-notchHalfWidth ≤ cx + w / 2) && decide (cy + h / 2 ≤ rw)
  | .flat =>
      if rw ≤ d ∨ d ≤ 0 then false
      else
        let notchY := rw - d
        let K := 2 * rw * d - d * d
        decide (notchY ≤ cy + h / 2) && leSqrt (cx - w / 2) K &&
          negSqrtLe (cx + w / 2) K && decide (cy + h / 2 ≤ rw)

/-- Source `_validate_center_based`. -/
def validateCenter (R cx cy : ℚ) : Bool := isPointInWafer R cx cy

/-- Source `WaferGeometry._validate_corner_based`: all four corners inside. -/
def validateCorner (R cx cy w h : ℚ) : Bool :=
  isPointInWafer R (cx - w / 2) (cy - h / 2) &&
  isPointInWafer R (cx + w / 2) (cy - h / 2) &&
  isPointInWafer R (cx + w / 2) (cy + h / 2) &&
  isPointInWafer R (cx - w / 2) (cy + h / 2)

/-- Source `WaferGeometry._validate_strict`: the four corners plus the four
edge midpoints. -/
def validateStrict (R cx cy w h : ℚ) : Bool :=
  isPointInWafer R (cx - w / 2) (cy - h / 2) &&
  isPointInWafer R (cx + w / 2) (cy - h / 2) &&
  isPointInWafer R (cx + w / 2) (cy + h / 2) &&
  isPointInWafer R (cx - w / 2) (cy + h / 2) &&
  isPointInWafer R cx (cy - h / 2) &&
  isPointInWafer R cx (cy + h / 2) &&
  isPointInWafer R (cx - w / 2) cy &&
  isPointInWafer R (cx + w / 2) cy

/-- Source `OptimizedWaferGeometry._validate_corner_based`: first test the
farthest corner `(|cx|+w/2, |cy|+h/2)`; if it is inside accept, otherwise
fall back to testing all four corners. -/
def optValidateCorner (R cx cy w h : ℚ) : Bool :=
  if (|cx| + w / 2) * (|cx| + w / 2) + (|cy| + h / 2) * (|cy| + h / 2) ≤ R * R then true
  else validateCorner R cx cy w h

/-- Source `OptimizedWaferGeometry._validate_strict`: checks only the four
corners (unlike the standard variant it omits the edge midpoints). -/
def optValidateStrict (R cx cy w h : ℚ) : Bool :=
  validateCorner R cx cy w h

/-- Source `OptimizedWaferGeometry._validate_area_based` ratio: if the center
is outside the circle the ratio is 0, otherwise the fraction of the four
corners that are inside. -/
def optAreaRatio (R cx cy w h : ℚ) : ℚ :=
  if validateCenter R cx cy then
    ((if isPointInWafer R (cx - w / 2) (cy - h / 2) then (1 : ℚ) else 0) +
     (if isPointInWafer R (cx + w / 2) (cy - h / 2) then (1 : ℚ) else 0) +
     (if isPointInWafer R (cx + w / 2) (cy + h / 2) then (1 : ℚ) else 0) +
     (if isPointInWafer R (cx - w / 2) (cy + h / 2) then (1 : ℚ) else 0)) / 4
  else 0

/-- Source `OptimizedWaferGeometry._validate_area_based` validity:
center inside and corner fraction strictly above 1/2. -/
def optValidateArea (R cx cy w h : ℚ) : Bool :=
  validateCenter R cx cy && decide ((1 : ℚ) / 2 < optAreaRatio R cx cy w h)

/-- One strip of the source `_compute_exact_intersection` loop: at midpoint
height `y`, skip if `|y| >= radius`; otherwise add the overlap of
`[left, right]` with the circle's span
`[-sqrt(r*r - y*y), sqrt(r*r - y*y)]`, times the strip height `dy`, when
that overlap is nonempty. -/
noncomputable def stripContribution (left right radius y dy : ℝ) : ℝ :=
  if radius ≤ |y| then 0
  else
    if max left (-Real.sqrt (radius * radius - y * y)) <
        min right (Real.sqrt (radius * radius - y * y)) then
      (min right (Real.sqrt (radius * radius - y * y)) -
        max left (-Real.sqrt (radius * radius - y * y))) * dy
    else 0

/-- Source `ExactGeometricCalculator._compute_exact_intersection`: midpoint
scan of the rectangle's vertical extent clipped to the circle
(`y_start = max(bottom, -radius)`, `y_end = min(top, radius)`), in 100 equal
strips of height `dy = (y_end - y_start)/100`, summing the strip
contributions at midpoints `y_start + (i + 1/2) * dy`. -/
noncomputable def computeExactIntersection (left right bottom top radius : ℝ) : ℝ :=
  if min top radius ≤ max bottom (-radius) then 0
  else
    ∑ i ∈ Finset.range 100,
      stripContribution left right radius
        (max bottom (-radius) +
          ((i : ℝ) + 1 / 2) * ((min top radius - max bottom (-radius)) / 100))
        ((min top radius - max bottom (-radius)) / 100)

/-- Source `ExactGeometricCalculator.rectangle_circle_intersection_area`:
fast rejection when all four corner distances exceed the radius, full
rectangle area when all are inside, the strip scan otherwise. -/
noncomputable def rectangleCircleIntersectionArea (cx cy w h radius : ℝ) : ℝ :=
  let left := cx - w / 2
  let right := cx + w / 2
  let top := cy + h / 2
  let bottom := cy - h / 2
  let d1 := Real.sqrt (left * left + bottom * bottom)
  let d2 := Real.sqrt (right * right + bottom * bottom)
  let d3 := Real.sqrt (right * right + top * top)
  let d4 := Real.sqrt (left * left + top * top)
  if radius < d1 ∧ radius < d2 ∧ radius < d3 ∧ radius < d4 then 0
  else if d1 ≤ radius ∧ d2 ≤ radius ∧ d3 ≤ radius ∧ d4 ≤ radius then w * h
  else computeExactIntersection left right bottom top radius

/-- Source `ExactGeometricCalculator.rectangle_circle_intersection_ratio`:
intersection area over rectangle area, clamped to at most 1; a rectangle of
zero area yields ratio 0. -/
noncomputable def rectangleCircleIntersectionRatio (cx cy w h radius : ℝ) : ℝ :=
  if w * h = 0 then 0
  else min 1 (rectangleCircleIntersectionArea cx cy w h radius / (w * h))

/-- Source `WaferGeometry.is_rectangle_in_wafer`, validity component: the
notch check runs first and overrides the per-method validation.  The
area-based arm compares the exact intersection ratio with 1/2 over the
reals, so validity is a proposition rather than a boolean. -/
def stdAccept (nt : Notch) (rw d R : ℚ) (m : Method) (cx cy w h : ℚ) : Prop :=
  rectIntersectsNotch nt rw d cx cy w h = false ∧
  match m with
  | .center => validateCenter R cx cy = true
  | .corner => validateCorner R cx cy w h = true
  | .area => 1 / 2 <
      rectangleCircleIntersectionRatio (cx : ℝ) (cy : ℝ) (w : ℝ) (h : ℝ) (R : ℝ)
  | .strict => validateStrict R cx cy w h = true

/-- Source `WaferGeometry.is_rectangle_in_wafer`, area-ratio component:
0 on notch intersection, the exact intersection ratio for the area method,
and 1.0 for the three point-based methods. -/
noncomputable def stdRatio (nt : Notch) (rw d R : ℚ) (m : Method) (cx cy w h : ℚ) : ℝ :=
  if rectIntersectsNotch nt rw d cx cy w h = true then 0
  else
    match m with
    | .area => rectangleCircleIntersectionRatio (cx : ℝ) (cy : ℝ) (w : ℝ) (h : ℝ) (R : ℝ)
    | _ => 1

/-- Source `OptimizedWaferGeometry.is_rectangle_in_wafer`, validity
component (fully computable: the optimized area heuristic only counts
corners). -/
def optAccept (nt : Notch) (rw d R : ℚ) (m : Method) (cx cy w h : ℚ) : Bool :=
  !(rectIntersectsNotch nt rw d cx cy w h) &&
  (match m with
   | .center => validateCenter R cx cy
   | .corner => optValidateCorner R cx cy w h
   | .area => optValidateArea R cx cy w h
   | .strict => optValidateStrict R cx cy w h)

/-- Source `OptimizedWaferGeometry.is_rectangle_in_wafer`, area-ratio
component. -/
def optRatio (nt : Notch) (rw d R : ℚ) (m : Method) (cx cy w h : ℚ) : ℚ :=
  if rectIntersectsNotch nt rw d cx cy w h then 0
  else
    match m with
    | .area => optAreaRatio R cx cy w h
    | _ => 1

/-- Claim C5: a rectangle flagged by the notch-intersection test is rejected
outright with covered fraction 0 under every validation method, in both the
standard and the optimized geometry. -/
theorem claim_C5_notch_overrides (nt : Notch) (rw d R cx cy w h : ℚ) (m : Method)
    (hn : rectIntersectsNotch nt rw d cx cy w h = true) :
    ¬ stdAccept nt rw d R m cx cy w h ∧
    stdRatio nt rw d R m cx cy w h = 0 ∧
    optAccept nt rw d R m cx cy w h = false ∧
    optRatio nt rw d R m cx cy w h = 0 := by
  cases m <;> simp [stdAccept, stdRatio, optAccept, optRatio, hn]

/-- Witness for C5 at a concrete rectangle overlapping a V-notch of depth 1
on a 200 mm wafer. -/
theorem claim_C5_notch_overrides_witness :
    rectIntersectsNotch .v90 100 1 0 (199/2) 1 1 = true ∧
    (¬ stdAccept .v90 100 1 97 .corner 0 (199/2) 1 1 ∧
     stdRatio .v90 100 1 97 .corner 0 (199/2) 1 1 = 0 ∧
     optAccept .v90 100 1 97 .corner 0 (199/2) 1 1 = false ∧
     optRatio .v90 100 1 97 .corner 0 (199/2) 1 1 = 0) :=
  ⟨by norm_num [rectIntersectsNotch],
   claim_C5_notch_overrides .v90 100 1 97 0 (199/2) 1 1 .corner
     (by norm_num [rectIntersectsNotch])⟩

/-- Claim C10: when the notch test does not fire, the three point-based
methods always report covered fraction exactly 1, independently of the
validity verdict, in both geometry variants. -/
theorem claim_C10_point_ratio_one (nt : Notch) (rw d R cx cy w h : ℚ)
    (hn : rectIntersectsNotch nt rw d cx cy w h = false) :
    stdRatio nt rw d R .center cx cy w h = 1 ∧
    stdRatio nt rw d R .corner cx cy w h = 1 ∧
    stdRatio nt rw d R .strict cx cy w h = 1 ∧
    optRatio nt rw d R .center cx cy w h = 1 ∧
    optRatio nt rw d R .corner cx cy w h = 1 ∧
    optRatio nt rw d R .strict cx cy w h = 1 := by
  refine ⟨?_, ?_, ?_, ?_, ?_, ?_⟩ <;>
    simp [stdRatio, optRatio, hn]

/-- Witness for C10 at a rectangle entirely outside the wafer (so the
validity verdict is false) with no notch. -/
theorem claim_C10_point_ratio_one_witness :
    rectIntersectsNotch .none_ 100 1 50 50 1 1 = false ∧
    validateCorner 3 50 50 1 1 = false ∧
    (stdRatio .none_ 100 1 3 .center 50 50 1 1 = 1 ∧
     stdRatio .none_ 100 1 3 .corner 50 50 1 1 = 1 ∧
     stdRatio .none_ 100 1 3 .strict 50 50 1 1 = 1 ∧
     optRatio .none_ 100 1 3 .center 50 50 1 1 = 1 ∧
     optRatio .none_ 100 1 3 .corner 50 50 1 1 = 1 ∧
     optRatio .none_ 100 1 3 .strict 50 50 1 1 = 1) :=
  ⟨rfl, by norm_num [validateCorner, isPointInWafer],
   claim_C10_point_ratio_one .none_ 100 1 3 50 50 1 1 rfl⟩

/-- Helper: both corners `c - o` and `c + o` have squares bounded by the
square of the farthest coordinate `|c| + o`. -/
lemma sq_corner_le (c o : ℚ) (ho : 0 ≤ o) :
    (c - o) * (c - o) ≤ (|c| + o) * (|c| + o) ∧
    (c + o) * (c + o) ≤ (|c| + o) * (|c| + o) := by
  constructor <;> nlinarith [neg_abs_le c, le_abs_self c, abs_nonneg c]

/-- Shared helper: the optimized farthest-corner shortcut agrees with the
plain four-corner check. -/
lemma optValidateCorner_eq_validateCorner (R cx cy w h : ℚ) (hw : 0 ≤ w) (hh : 0 ≤ h) :
    optValidateCorner R cx cy w h = validateCorner R cx cy w h := by
  rw [optValidateCorner]
  split_ifs with hfar
  · have hx := sq_corner_le cx (w / 2) (by positivity)
    have hy := sq_corner_le cy (h / 2) (by positivity)
    symm
    simp only [validateCorner, isPointInWafer, Bool.and_eq_true, decide_eq_true_eq]
    refine ⟨⟨⟨?_, ?_⟩, ?_⟩, ?_⟩ <;> nlinarith [hx.1, hx.2, hy.1, hy.2, hfar]
  · rfl

/-- Claim C9: the optimized corner validation (farthest-corner shortcut with
fallback to the four-corner check) accepts exactly the rectangles whose four
corners all lie within the effective radius, i.e. it agrees with the
standard four-corner check. -/
theorem claim_C9_corner_shortcut_equiv (R cx cy w h : ℚ) (hw : 0 < w) (hh : 0 < h) :
    optValidateCorner R cx cy w h = validateCorner R cx cy w h :=
  optValidateCorner_eq_validateCorner R cx cy w h hw.le hh.le

/-- Witness for C9 at a concrete rectangle (farthest-corner branch taken). -/
theorem claim_C9_corner_shortcut_equiv_witness :
    (0 : ℚ) < 2 ∧ (0 : ℚ) < 2 ∧ optValidateCorner 3 0 0 2 2 = validateCorner 3 0 0 2 2 :=
  ⟨by norm_num, by norm_num,
   claim_C9_corner_shortcut_equiv 3 0 0 2 2 (by norm_num) (by norm_num)⟩

/-- Claim C6 counterexample: wafer radius 100, V-notch of depth 1, and the
1 × 2 rectangle centered at (0, 100).  Its vertical extent [99, 101]
overlaps the depth band [99, 100] (it reaches into the band) and its
horizontal extent [-1/2, 1/2] overlaps the half-width band [-1, 1], yet the
source's notch-intersection test returns false, because the test also
requires the rectangle's notch-side edge `cy + h/2` not to exceed the wafer
radius.  So the claimed iff fails. -/
theorem claim_C6_counterexample :
    ((100 : ℚ) - 1 ≤ 100 + 2 / 2) ∧ ((100 : ℚ) - 2 / 2 ≤ 100) ∧
    ((0 : ℚ) - 1 / 2 ≤ 1) ∧ (-(1 : ℚ) ≤ 0 + 1 / 2) ∧
    rectIntersectsNotch .v90 100 1 0 100 1 2 = false := by
  norm_num [rectIntersectsNotch]

/-- Claim C6 as amended: for V90 (half-width d) and Flat (half-width
`sqrt (2 r d - d^2)`) notches, the intersection test returns true iff the
rectangle's notch-side edge `cy + h/2` lies within the depth band
`[r - d, r]` (rather than the whole vertical extent merely overlapping the
band) and the horizontal extent overlaps the half-width band. -/
theorem claim_C6_notch_test_amended (rw d cx cy w h : ℚ) (hd0 : 0 < d) (hdr : d < rw) :
    (rectIntersectsNotch .v90 rw d cx cy w h = true ↔
      (rw - d ≤ cy + h / 2 ∧ cy + h / 2 ≤ rw ∧ cx - w / 2 ≤ d ∧ -d ≤ cx + w / 2)) ∧
    (rectIntersectsNotch .flat rw d cx cy w h = true ↔
      (rw - d ≤ cy + h / 2 ∧ cy + h / 2 ≤ rw ∧
       ((cx - w / 2 : ℚ) : ℝ) ≤ Real.sqrt ((2 * rw * d - d * d : ℚ) : ℝ) ∧
       -Real.sqrt ((2 * rw * d - d * d : ℚ) : ℝ) ≤ ((cx + w / 2 : ℚ) : ℝ))) := by
  have hK : (0 : ℚ) ≤ 2 * rw * d - d * d := by nlinarith
  constructor
  · simp only [rectIntersectsNotch, Bool.and_eq_true, decide_eq_true_eq]
    tauto
  · simp only [rectIntersectsNotch, hd0.not_le, hdr.not_le, or_self, if_neg,
      not_false_eq_true, Bool.and_eq_true, decide_eq_true_eq, or_false,
      leSqrt_iff _ _ hK, negSqrtLe_iff _ _ hK]
    tauto

/-- Witness for the amended C6 at a concrete notch geometry. -/
theorem claim_C6_notch_test_amended_witness :
    (0 : ℚ) < 1 ∧ (1 : ℚ) < 100 ∧
    ((rectIntersectsNotch .v90 100 1 0 99 1 1 = true ↔
      ((100 : ℚ) - 1 ≤ 99 + 1 / 2 ∧ (99 : ℚ) + 1 / 2 ≤ 100 ∧
       (0 : ℚ) - 1 / 2 ≤ 1 ∧ -(1 : ℚ) ≤ 0 + 1 / 2)) ∧
     (rectIntersectsNotch .flat 100 1 0 99 1 1 = true ↔
      ((100 : ℚ) - 1 ≤ 99 + 1 / 2 ∧ (99 : ℚ) + 1 / 2 ≤ 100 ∧
       ((0 - 1 / 2 : ℚ) : ℝ) ≤ Real.sqrt ((2 * 100 * 1 - 1 * 1 : ℚ) : ℝ) ∧
       -Real.sqrt ((2 * 100 * 1 - 1 * 1 : ℚ) : ℝ) ≤ ((0 + 1 / 2 : ℚ) : ℝ)))) :=
  ⟨by norm_num, by norm_num,
   claim_C6_notch_test_amended 100 1 0 99 1 1 (by norm_num) (by norm_num)⟩

/-- Source `SpatialOptimizer` pre-filter comparison
`sqrt A <= c + sqrt B` (A the squared distance of the candidate center, `c`
the effective radius, B the squared half-diagonal of one pitch cell),
embedded by sign-aware squaring; see `sqrtLePlusSqrt_iff`. -/
def sqrtLePlusSqrt (A c B : ℚ) : Bool :=
  decide (A - c * c - B ≤ 0) ||
    decide ((A - c * c - B) * (A - c * c - B) ≤ 4 * (c * c) * B)

/-- Bridge: `sqrtLePlusSqrt` agrees with the literal real comparison for a
nonnegative bound `c` and radicand `B`. -/
theorem sqrtLePlusSqrt_iff (A c B : ℚ) (hc : 0 ≤ c) (hB : 0 ≤ B) :
    sqrtLePlusSqrt A c B = true ↔
      Real.sqrt (A : ℝ) ≤ (c : ℝ) + Real.sqrt (B : ℝ) := by
  have hcR : (0 : ℝ) ≤ (c : ℝ) := by exact_mod_cast hc
  have hBR : (0 : ℝ) ≤ (B : ℝ) := by exact_mod_cast hB
  have hsB : (0 : ℝ) ≤ Real.sqrt (B : ℝ) := Real.sqrt_nonneg _
  have hsum : (0 : ℝ) ≤ (c : ℝ) + Real.sqrt (B : ℝ) := by linarith
  have hsq : ((c : ℝ) + Real.sqrt (B : ℝ)) ^ 2 =
      (c : ℝ) * c + (B : ℝ) + 2 * c * Real.sqrt (B : ℝ) := by
    rw [add_sq, Real.sq_sqrt hBR]
    ring
  rw [sqrtLePlusSqrt, Bool.or_eq_true, decide_eq_true_eq, decide_eq_true_eq,
    Real.sqrt_le_left hsum, hsq]
  constructor
  · rintro (h | h)
    · have h1 : (A : ℝ) - c * c - B ≤ 0 := by exact_mod_cast h
      linarith [mul_nonneg hcR hsB]
    · have h1 : ((A : ℝ) - c * c - B) * ((A : ℝ) - c * c - B) ≤ 4 * (c * c) * B := by
        exact_mod_cast h
      have h2 : (A : ℝ) - c * c - B ≤ Real.sqrt (4 * (c * c) * (B : ℝ)) :=
        Real.le_sqrt_of_sq_le (by rw [sq]; exact h1)
      have h3 : Real.sqrt (4 * (c * c) * (B : ℝ)) = 2 * c * Real.sqrt (B : ℝ) := by
        rw [show (4 : ℝ) * (c * c) * (B : ℝ) = (2 * c) ^ 2 * (B : ℝ) by ring,
          Real.sqrt_mul (by positivity), Real.sqrt_sq (by positivity)]
      rw [h3] at h2
      linarith
  · intro h
    by_cases h0 : A - c * c - B ≤ 0
    · exact Or.inl h0
    · right
      push_neg at h0
      have h0R : (0 : ℝ) < (A : ℝ) - c * c - B := by exact_mod_cast h0
      have h2 : (A : ℝ) - c * c - B ≤ 2 * c * Real.sqrt (B : ℝ) := by linarith
      have h3 : ((A : ℝ) - c * c - B) * ((A : ℝ) - c * c - B) ≤
          (2 * c * Real.sqrt (B : ℝ)) * (2 * c * Real.sqrt (B : ℝ)) := by
        exact mul_self_le_mul_self h0R.le h2
      have h4 : (2 * c * Real.sqrt (B : ℝ)) * (2 * c * Real.sqrt (B : ℝ)) =
          4 * (c * c) * (B : ℝ) := by
        have : Real.sqrt (B : ℝ) * Real.sqrt (B : ℝ) = (B : ℝ) :=
          Real.mul_self_sqrt hBR
        nlinarith [this]
      rw [h4] at h3
      exact_mod_cast h3

/-- Engine input parameter bundle (the keyword arguments of
`calculate_dies_per_wafer`; die and scribe sizes in micrometers, the rest in
millimeters / percent). -/
structure Params where
  dieX : ℚ
  dieY : ℚ
  scribeX : ℚ
  scribeY : ℚ
  diameter : ℚ
  edge : ℚ
  yieldPct : ℚ
  notch : Notch
  notchDepth : ℚ

/-- Derived die pitch in mm along x: `die_size_x_um/1000 + scribe_lane_x_um/1000`. -/
def Params.pitchX (p : Params) : ℚ := p.dieX / 1000 + p.scribeX / 1000

/-- Derived die pitch in mm along y. -/
def Params.pitchY (p : Params) : ℚ := p.dieY / 1000 + p.scribeY / 1000

/-- Effective radius `wafer_diameter_mm/2 - edge_exclusion_mm`. -/
def Params.effR (p : Params) : ℚ := p.diameter / 2 - p.edge

/-- Uncut wafer radius `wafer_diameter_mm/2`. -/
def Params.waferR (p : Params) : ℚ := p.diameter / 2

/-- Engine result: the fields of `CalculationResult` the claims are about
(total die count and yield-adjusted count). -/
structure ResultQ where
  totalDies : ℕ
  yieldDies : ℤ
deriving DecidableEq, Repr

/-- Source `DieCalculator.calculate_dies_per_wafer` candidate enumeration and
counting, generic in the per-position validity predicate
`valid i j` (the first component of `is_rectangle_in_wafer` at center
`(i*pitch_x, j*pitch_y)`).  With `opt = false` this is the traditional
full-grid path (`max_dies = int(2R/pitch)+1`, indices from `-max_dies//2` to
`max_dies//2`); with `opt = true` it is the `SpatialOptimizer` path
(`max_dies = int(2R/pitch)+2`, same index window, and a coarse distance
pre-filter `dist <= R + half-diagonal of a pitch cell`). -/
def stdCount (opt : Bool) (valid : ℤ → ℤ → Prop)
    (dec : ∀ i j, Decidable (valid i j)) (R px py : ℚ) : ℕ :=
  if opt then
    ∑ i ∈ Finset.Icc (Int.fdiv (-(pyInt (2 * R / px) + 2)) 2)
        (Int.fdiv (pyInt (2 * R / px) + 2) 2),
      ∑ j ∈ Finset.Icc (Int.fdiv (-(pyInt (2 * R / py) + 2)) 2)
          (Int.fdiv (pyInt (2 * R / py) + 2) 2),
        if sqrtLePlusSqrt (((i : ℚ) * px) * ((i : ℚ) * px) +
              ((j : ℚ) * py) * ((j : ℚ) * py)) R
            ((px / 2) * (px / 2) + (py / 2) * (py / 2)) then
          @ite ℕ (valid i j) (dec i j) 1 0
        else 0
  else
    ∑ i ∈ Finset.Icc (Int.fdiv (-(pyInt (2 * R / px) + 1)) 2)
        (Int.fdiv (pyInt (2 * R / px) + 1) 2),
      ∑ j ∈ Finset.Icc (Int.fdiv (-(pyInt (2 * R / py) + 1)) 2)
          (Int.fdiv (pyInt (2 * R / py) + 1) 2),
        @ite ℕ (valid i j) (dec i j) 1 0

/-- Source `int(math.sqrt S / py)` for a nonnegative radicand `S`: the
greatest `j <= fuel` with `(j*py)^2 <= S` (0 if none).  The engines pass a
fuel bounding `floor (R/py)` from above, which dominates the true value. -/
def maxJRow (S py : ℚ) (fuel : ℕ) : ℕ :=
  Nat.findGreatest (fun j => ((j : ℚ) * py) * ((j : ℚ) * py) ≤ S) fuel

/-- Symmetry multiplicity used by the optimized no-notch enumeration:
1 for the origin, 2 for an axis point, 4 for a quadrant-interior point. -/
def symMult (i j : ℤ) : ℕ :=
  if i = 0 ∧ j = 0 then 1 else if i = 0 ∨ j = 0 then 2 else 4

/-- Source `OptimizedDieCalculator._calculate_valid_dies_optimized`, no-notch
branch: first-quadrant enumeration (`i` in `[0, int(R/px)+1]`, columns with
negative remaining squared radius skipped, `j` in `[0, int(sqrt(S)/py)]`),
counting each accepted position with its symmetry multiplicity. -/
def optQuadCount (valid : ℤ → ℤ → Prop) (dec : ∀ i j, Decidable (valid i j))
    (R px py : ℚ) : ℕ :=
  ∑ i ∈ Finset.Icc (0 : ℤ) (pyInt (R / px) + 1),
    if R * R - ((i : ℚ) * px) * ((i : ℚ) * px) < 0 then 0
    else
      ∑ j ∈ Finset.Icc (0 : ℤ)
          ((maxJRow (R * R - ((i : ℚ) * px) * ((i : ℚ) * px)) py
            (pyInt (R / py) + 1).toNat : ℕ) : ℤ),
        symMult i j * @ite ℕ (valid i j) (dec i j) 1 0

/-- Source `OptimizedDieCalculator._calculate_valid_dies_optimized`, notch
branch: full enumeration `i` in `[-int(R/px)-1, int(R/px)+1]`, `j` in
`[-int(sqrt(S)/py), int(sqrt(S)/py)]` per column. -/
def optNotchCount (valid : ℤ → ℤ → Prop) (dec : ∀ i j, Decidable (valid i j))
    (R px py : ℚ) : ℕ :=
  ∑ i ∈ Finset.Icc (-(pyInt (R / px) + 1)) (pyInt (R / px) + 1),
    if R * R - ((i : ℚ) * px) * ((i : ℚ) * px) < 0 then 0
    else
      ∑ j ∈ Finset.Icc
          (-((maxJRow (R * R - ((i : ℚ) * px) * ((i : ℚ) * px)) py
            (pyInt (R / py) + 1).toNat : ℕ) : ℤ))
          ((maxJRow (R * R - ((i : ℚ) * px) * ((i : ℚ) * px)) py
            (pyInt (R / py) + 1).toNat : ℕ) : ℤ),
        @ite ℕ (valid i j) (dec i j) 1 0

/-- Source `DieCalculator.calculate_dies_per_wafer`: the standard engine
performs no eager input validation; the only raised errors are those of the
`WaferGeometry` constructor (non-positive effective radius, negative notch
depth, notch depth at least the wafer radius, in that order).  The result
carries the accepted count and `yield_dies = int(total * (yield/100))`. -/
def stdCalculate (valid : ℤ → ℤ → Prop) (dec : ∀ i j, Decidable (valid i j))
    (opt : Bool) (p : Params) : Except (List String) ResultQ :=
  if p.diameter / 2 - p.edge ≤ 0 then
    .error ["Effective radius must be positive."]
  else if p.notchDepth < 0 then
    .error ["Notch depth must be non-negative."]
  else if p.diameter / 2 ≤ p.notchDepth then
    .error ["Notch depth cannot exceed wafer radius."]
  else
    let total := stdCount opt valid dec (p.diameter / 2 - p.edge) p.pitchX p.pitchY
    .ok ⟨total, pyInt ((total : ℚ) * (p.yieldPct / 100))⟩

/-- Source `OptimizedDieCalculator.calculate_dies_per_wafer` eager input
validation: every violated first-batch condition contributes its message, in
source order. -/
def optValidationErrors (p : Params) : List String :=
  (if p.dieX ≤ 0 then ["die_size_x_um must be positive"] else []) ++
  (if p.dieY ≤ 0 then ["die_size_y_um must be positive"] else []) ++
  (if p.scribeX < 0 then ["scribe_lane_x_um must be non-negative"] else []) ++
  (if p.scribeY < 0 then ["scribe_lane_y_um must be non-negative"] else []) ++
  (if p.diameter ≤ 0 then ["wafer_diameter_mm must be positive"] else []) ++
  (if p.edge < 0 then ["edge_exclusion_mm must be non-negative"] else []) ++
  (if ¬(0 ≤ p.yieldPct ∧ p.yieldPct ≤ 100) then
    ["yield_percentage must be between 0 and 100"] else [])

/-- Source `OptimizedDieCalculator.calculate_dies_per_wafer`: aggregate
first-batch validation, pitch positivity check, the
`OptimizedWaferGeometry` constructor checks, then quadrant-symmetric
(no notch) or full (notch) enumeration; `yield_dies` as in the standard
engine.  Generic in the per-position validity predicate (the first component
of the optimized `is_rectangle_in_wafer` at center `(i*pitch_x, j*pitch_y)`
with the bare die dimensions). -/
def optCalculate (valid : ℤ → ℤ → Prop) (dec : ∀ i j, Decidable (valid i j))
    (p : Params) : Except (List String) ResultQ :=
  if optValidationErrors p ≠ [] then .error (optValidationErrors p)
  else if p.pitchX ≤ 0 ∨ p.pitchY ≤ 0 then
    .error ["die pitch must be positive (die size + scribe lane)"]
  else if p.diameter / 2 - p.edge ≤ 0 then
    .error ["Effective radius must be positive."]
  else if p.notchDepth < 0 then
    .error ["Notch depth must be non-negative."]
  else if p.diameter / 2 ≤ p.notchDepth then
    .error ["Notch depth cannot exceed wafer radius."]
  else
    let total :=
      if p.notch = .none_ then
        optQuadCount valid dec (p.diameter / 2 - p.edge) p.pitchX p.pitchY
      else
        optNotchCount valid dec (p.diameter / 2 - p.edge) p.pitchX p.pitchY
    .ok ⟨total, pyInt ((total : ℚ) * (p.yieldPct / 100))⟩

/-- Standard-engine per-position validity at grid position `(i, j)` for a
given method: the validated rectangle is the full pitch cell. -/
def stdValidAt (p : Params) (m : Method) (i j : ℤ) : Prop :=
  stdAccept p.notch p.waferR p.notchDepth p.effR m
    ((i : ℚ) * p.pitchX) ((j : ℚ) * p.pitchY) p.pitchX p.pitchY

/-- Optimized-engine per-position validity at grid position `(i, j)`: the
validated rectangle is the bare die (scribe lanes excluded), unlike the
standard engine. -/
def optValidAt (p : Params) (m : Method) (i j : ℤ) : Prop :=
  optAccept p.notch p.waferR p.notchDepth p.effR m
    ((i : ℚ) * p.pitchX) ((j : ℚ) * p.pitchY) (p.dieX / 1000) (p.dieY / 1000) = true

/-- Decidability token for the standard per-position validity; classical
because the area arm compares real numbers.  All concrete evaluations in
this file go through `simp`/`norm_num`, which are instance-irrelevant. -/
noncomputable def stdDec (p : Params) (m : Method) :
    ∀ i j, Decidable (stdValidAt p m i j) := fun _ _ =>
  Classical.propDecidable _

/-- Decidability of the optimized per-position validity (a boolean test). -/
def optDec (p : Params) (m : Method) :
    ∀ i j, Decidable (optValidAt p m i j) := fun _ _ =>
  instDecidableEqBool _ _

/-- Python `int` is the floor on nonnegative arguments. -/
lemma pyInt_ofNonneg {q : ℚ} (h : 0 ≤ q) : pyInt q = ⌊q⌋ := if_pos h

/-- Python `int` is the identity on integers. -/
lemma pyInt_intCast (n : ℤ) : pyInt (n : ℚ) = n := by
  rw [pyInt]
  split_ifs with h
  · exact Int.floor_intCast n
  · exact Int.ceil_intCast n

/-- Yield arithmetic: for yield in [0, 100] the truncation
`int(total * (yield/100))` equals `floor(total * yield / 100)` and lies in
`[0, total]`. -/
lemma yield_spec (t : ℕ) (y : ℚ) (hy0 : 0 ≤ y) (hy1 : y ≤ 100) :
    pyInt ((t : ℚ) * (y / 100)) = ⌊(t : ℚ) * y / 100⌋ ∧
    0 ≤ pyInt ((t : ℚ) * (y / 100)) ∧ pyInt ((t : ℚ) * (y / 100)) ≤ (t : ℤ) := by
  have harg : (0 : ℚ) ≤ (t : ℚ) * (y / 100) := by positivity
  rw [pyInt_ofNonneg harg]
  refine ⟨by rw [mul_div_assoc], Int.floor_nonneg.mpr harg, ?_⟩
  have hle : (t : ℚ) * (y / 100) ≤ (t : ℚ) := by
    apply mul_le_of_le_one_right (by positivity)
    linarith
  calc ⌊(t : ℚ) * (y / 100)⌋ ≤ ⌊(t : ℚ)⌋ := Int.floor_le_floor hle
    _ = t := Int.floor_natCast t

/-- Yield extraction from a successful engine result. -/
lemma okYield (t : ℕ) (y : ℚ) (r : ResultQ)
    (h : (Except.ok ⟨t, pyInt ((t : ℚ) * (y / 100))⟩ : Except (List String) ResultQ) = .ok r)
    (hy0 : 0 ≤ y) (hy1 : y ≤ 100) :
    r.yieldDies = ⌊(r.totalDies : ℚ) * y / 100⌋ ∧
    0 ≤ r.yieldDies ∧ r.yieldDies ≤ (r.totalDies : ℤ) := by
  obtain rfl : (⟨t, pyInt ((t : ℚ) * (y / 100))⟩ : ResultQ) = r := Except.ok.inj h
  exact yield_spec t y hy0 hy1

/-- Claim C3: for every run of either engine with yield percentage in
[0, 100], the returned result satisfies
`yield_dies = floor (total_dies * yield / 100)` exactly, and
`0 <= yield_dies <= total_dies` (generic in the validation policy via the
per-position validity predicate). -/
theorem claim_C3_yield_formula (valid : ℤ → ℤ → Prop)
    (dec : ∀ i j, Decidable (valid i j)) (opt : Bool) (p : Params) (r s : ResultQ)
    (hy0 : 0 ≤ p.yieldPct) (hy1 : p.yieldPct ≤ 100) :
    (stdCalculate valid dec opt p = .ok r →
      r.yieldDies = ⌊(r.totalDies : ℚ) * p.yieldPct / 100⌋ ∧
      0 ≤ r.yieldDies ∧ r.yieldDies ≤ (r.totalDies : ℤ)) ∧
    (optCalculate valid dec p = .ok s →
      s.yieldDies = ⌊(s.totalDies : ℚ) * p.yieldPct / 100⌋ ∧
      0 ≤ s.yieldDies ∧ s.yieldDies ≤ (s.totalDies : ℤ)) := by
  constructor
  · intro h
    rw [stdCalculate] at h
    split_ifs at h
    all_goals exact okYield _ _ r h hy0 hy1
  · intro h
    rw [optCalculate] at h
    split_ifs at h
    all_goals exact okYield _ _ s h hy0 hy1

/-- Input bundle of the repository's own test
`test_negative_die_size_x`: a negative die width with otherwise default
arguments (zero scribe here, as the engine call requires explicit scribe
values); the test expects a `ValueError`. -/
def paramsC2 : Params :=
  { dieX := -1000, dieY := 2000, scribeX := 0, scribeY := 0,
    diameter := 200, edge := 3, yieldPct := 100, notch := .none_, notchDepth := 1 }

/-- Claim C2 (code-bug evidence): the standard engine performs no eager
input validation, so on the invalid input `die_size_x_um = -1000` it
returns a normal result (zero dies) instead of failing, contradicting the
repository's own test suite and the spec. -/
theorem claim_C2_std_accepts_invalid_input :
    stdCalculate (stdValidAt paramsC2 .corner) (stdDec paramsC2 .corner) false paramsC2 =
      .ok ⟨0, 0⟩ := by
  rw [stdCalculate, if_neg (by norm_num [paramsC2]), if_neg (by norm_num [paramsC2]),
    if_neg (by norm_num [paramsC2])]
  have hout : stdCount false (stdValidAt paramsC2 .corner) (stdDec paramsC2 .corner)
      (paramsC2.diameter / 2 - paramsC2.edge) paramsC2.pitchX paramsC2.pitchY = 0 := by
    rw [stdCount]
    have hpx : paramsC2.pitchX = -1 := by norm_num [paramsC2, Params.pitchX]
    have hR : paramsC2.diameter / 2 - paramsC2.edge = 97 := by norm_num [paramsC2]
    rw [hpx, hR]
    have hm : pyInt (2 * (97 : ℚ) / (-1)) + 1 = -193 := by
      rw [show (2 * (97 : ℚ) / (-1)) = ((-194 : ℤ) : ℚ) by norm_num, pyInt_intCast]
      norm_num
    rw [if_neg (by simp), hm]
    rw [show Finset.Icc (Int.fdiv (-(-193)) 2) (Int.fdiv (-193) 2) = (∅ : Finset ℤ) from by decide]
    exact Finset.sum_empty
  rw [hout]
  norm_num [paramsC2]
  rw [show (0 : ℚ) = ((0 : ℤ) : ℚ) by norm_num, pyInt_intCast]

/-- Successful-run shape of the standard engine. -/
lemma stdCalculate_ok (valid : ℤ → ℤ → Prop) (dec : ∀ i j, Decidable (valid i j))
    (opt : Bool) (p : Params)
    (h1 : ¬(p.diameter / 2 - p.edge ≤ 0)) (h2 : ¬(p.notchDepth < 0))
    (h3 : ¬(p.diameter / 2 ≤ p.notchDepth)) :
    stdCalculate valid dec opt p =
      .ok ⟨stdCount opt valid dec (p.diameter / 2 - p.edge) p.pitchX p.pitchY,
        pyInt ((stdCount opt valid dec (p.diameter / 2 - p.edge) p.pitchX p.pitchY : ℚ) *
          (p.yieldPct / 100))⟩ := by
  rw [stdCalculate, if_neg h1, if_neg h2, if_neg h3]

/-- Successful-run shape of the optimized engine in the no-notch case. -/
lemma optCalculate_ok_noNotch (valid : ℤ → ℤ → Prop)
    (dec : ∀ i j, Decidable (valid i j)) (p : Params)
    (h0 : optValidationErrors p = []) (hp : ¬(p.pitchX ≤ 0 ∨ p.pitchY ≤ 0))
    (h1 : ¬(p.diameter / 2 - p.edge ≤ 0)) (h2 : ¬(p.notchDepth < 0))
    (h3 : ¬(p.diameter / 2 ≤ p.notchDepth)) (hn : p.notch = .none_) :
    optCalculate valid dec p =
      .ok ⟨optQuadCount valid dec (p.diameter / 2 - p.edge) p.pitchX p.pitchY,
        pyInt ((optQuadCount valid dec (p.diameter / 2 - p.edge) p.pitchX p.pitchY : ℚ) *
          (p.yieldPct / 100))⟩ := by
  rw [optCalculate, if_neg (by simp [h0]), if_neg hp, if_neg h1, if_neg h2, if_neg h3,
    if_pos hn]

/-- Literal interval expansions used when evaluating concrete engine runs. -/
lemma iccZ_0_1 : Finset.Icc (0 : ℤ) 1 = {0, 1} := by decide

/-- Literal interval expansion. -/
lemma iccZ_0_2 : Finset.Icc (0 : ℤ) 2 = {0, 1, 2} := by decide

/-- Literal interval expansion. -/
lemma iccZ_m2_2 : Finset.Icc (-2 : ℤ) 2 = {-2, -1, 0, 1, 2} := by decide

/-- Concrete no-notch configuration on which the two engines disagree:
die 1000 × 1000 µm with scribe 1000 × 1000 µm (pitch 2 mm, bare die 1 mm),
wafer diameter 6 mm, no edge exclusion, yield 100, corner validation. -/
def paramsC1 : Params :=
  { dieX := 1000, dieY := 1000, scribeX := 1000, scribeY := 1000,
    diameter := 6, edge := 0, yieldPct := 100, notch := .none_, notchDepth := 1 }

/-- Full-grid (traditional) run of the standard engine on `paramsC1`:
exactly 1 die (the validated rectangle is the 2 mm pitch cell). -/
lemma stdRunC1 :
    stdCalculate (stdValidAt paramsC1 .corner) (stdDec paramsC1 .corner) false paramsC1 =
      .ok ⟨1, 1⟩ := by
  rw [stdCalculate_ok _ _ _ _ (by norm_num [paramsC1]) (by norm_num [paramsC1])
    (by norm_num [paramsC1])]
  have hcount : stdCount false (stdValidAt paramsC1 .corner) (stdDec paramsC1 .corner)
      (paramsC1.diameter / 2 - paramsC1.edge) paramsC1.pitchX paramsC1.pitchY = 1 := by
    have hpx : paramsC1.pitchX = 2 := by norm_num [paramsC1, Params.pitchX]
    have hpy : paramsC1.pitchY = 2 := by norm_num [paramsC1, Params.pitchY]
    have hR : paramsC1.diameter / 2 - paramsC1.edge = 3 := by norm_num [paramsC1]
    rw [stdCount, if_neg (by simp), hpx, hpy, hR]
    have hb : pyInt (2 * (3 : ℚ) / 2) + 1 = 4 := by
      rw [pyInt_ofNonneg (by norm_num)]
      norm_num
    rw [hb, show Finset.Icc (Int.fdiv (-(4 : ℤ)) 2) (Int.fdiv (4 : ℤ) 2) =
      ({-2, -1, 0, 1, 2} : Finset ℤ) from by decide]
    norm_num [stdValidAt, stdAccept, paramsC1, Params.effR, Params.waferR,
      Params.pitchX, Params.pitchY, rectIntersectsNotch, validateCorner,
      isPointInWafer, decide_eq_true_eq, Finset.sum_insert, Finset.mem_insert,
      Finset.filter_insert, Finset.filter_singleton]
  rw [hcount]
  have hy : pyInt (((1 : ℕ) : ℚ) * (paramsC1.yieldPct / 100)) = 1 := by
    rw [show (((1 : ℕ) : ℚ) * (paramsC1.yieldPct / 100)) = ((1 : ℤ) : ℚ) by
      norm_num [paramsC1], pyInt_intCast]
  rw [hy]

/-- Quadrant-symmetric run of the optimized engine on `paramsC1`: 5 dies
(the validated rectangle is the bare 1 mm die). -/
lemma optRunC1 :
    optCalculate (optValidAt paramsC1 .corner) (optDec paramsC1 .corner) paramsC1 =
      .ok ⟨5, 5⟩ := by
  rw [optCalculate_ok_noNotch _ _ _ (by norm_num [optValidationErrors, paramsC1])
    (by norm_num [paramsC1, Params.pitchX, Params.pitchY])
    (by norm_num [paramsC1]) (by norm_num [paramsC1]) (by norm_num [paramsC1]) rfl]
  have hcount : optQuadCount (optValidAt paramsC1 .corner) (optDec paramsC1 .corner)
      (paramsC1.diameter / 2 - paramsC1.edge) paramsC1.pitchX paramsC1.pitchY = 5 := by
    have hpx : paramsC1.pitchX = 2 := by norm_num [paramsC1, Params.pitchX]
    have hpy : paramsC1.pitchY = 2 := by norm_num [paramsC1, Params.pitchY]
    have hR : paramsC1.diameter / 2 - paramsC1.edge = 3 := by norm_num [paramsC1]
    rw [optQuadCount, hpx, hpy, hR]
    have hb : pyInt ((3 : ℚ) / 2) + 1 = 2 := by
      rw [pyInt_ofNonneg (by norm_num)]
      norm_num
    rw [hb, iccZ_0_2]
    norm_num [maxJRow, Nat.findGreatest, symMult, optValidAt, optAccept, paramsC1,
      Params.effR, Params.waferR, Params.pitchX, Params.pitchY, rectIntersectsNotch,
      optValidateCorner, validateCorner, validateCenter, isPointInWafer,
      decide_eq_true_eq, iccZ_0_1, Finset.sum_insert, Finset.mem_insert,
      Finset.filter_insert, Finset.filter_singleton]
  rw [hcount]
  have hy : pyInt (((5 : ℕ) : ℚ) * (paramsC1.yieldPct / 100)) = 5 := by
    rw [show (((5 : ℕ) : ℚ) * (paramsC1.yieldPct / 100)) = ((5 : ℤ) : ℚ) by
      norm_num [paramsC1], pyInt_intCast]
  rw [hy]

/-- Claim C1 counterexample: on the valid no-notch input `paramsC1`
(positive die sizes, nonnegative scribe lanes, effective radius 3 > 0) with
the corner policy, the full-grid standard enumeration counts 1 die while the
quadrant-symmetric optimized enumeration counts 5: the two engines validate
different rectangles (pitch cell vs bare die), so the claimed equality
fails. -/
theorem claim_C1_counterexample :
    stdCalculate (stdValidAt paramsC1 .corner) (stdDec paramsC1 .corner) false paramsC1 =
      .ok ⟨1, 1⟩ ∧
    optCalculate (optValidAt paramsC1 .corner) (optDec paramsC1 .corner) paramsC1 =
      .ok ⟨5, 5⟩ ∧
    (1 : ℕ) ≠ 5 :=
  ⟨stdRunC1, optRunC1, by norm_num⟩

/-- Witness for C3 at the concrete runs of both engines on `paramsC1`. -/
theorem claim_C3_yield_formula_witness :
    ((0 : ℚ) ≤ paramsC1.yieldPct ∧ paramsC1.yieldPct ≤ 100) ∧
    ((1 : ℤ) = ⌊((1 : ℕ) : ℚ) * paramsC1.yieldPct / 100⌋ ∧
      (0 : ℤ) ≤ 1 ∧ (1 : ℤ) ≤ ((1 : ℕ) : ℤ)) ∧
    ((5 : ℤ) = ⌊((5 : ℕ) : ℚ) * paramsC1.yieldPct / 100⌋ ∧
      (0 : ℤ) ≤ 5 ∧ (5 : ℤ) ≤ ((5 : ℕ) : ℤ)) :=
  ⟨⟨by norm_num [paramsC1], by norm_num [paramsC1]⟩,
   (claim_C3_yield_formula (stdValidAt paramsC1 .corner) (stdDec paramsC1 .corner)
      false paramsC1 ⟨1, 1⟩ ⟨5, 5⟩ (by norm_num [paramsC1]) (by norm_num [paramsC1])).1
     stdRunC1,
   (claim_C3_yield_formula (optValidAt paramsC1 .corner) (optDec paramsC1 .corner)
      false paramsC1 ⟨1, 1⟩ ⟨5, 5⟩ (by norm_num [paramsC1]) (by norm_num [paramsC1])).2
     optRunC1⟩

/-- Helper: strict validation implies corner validation (the strict point
set contains the four corners). -/
lemma strict_implies_corner (R cx cy w h : ℚ)
    (hs : validateStrict R cx cy w h = true) : validateCorner R cx cy w h = true := by
  simp only [validateStrict, Bool.and_eq_true] at hs
  simp only [validateCorner, Bool.and_eq_true]
  tauto

/-- Helper: if all four corners are inside the circle then so is the center
(summing the bottom-left and top-right corner inequalities). -/
lemma corner_implies_center (R cx cy w h : ℚ)
    (hc : validateCorner R cx cy w h = true) : validateCenter R cx cy = true := by
  simp only [validateCorner, isPointInWafer, Bool.and_eq_true, decide_eq_true_eq] at hc
  obtain ⟨⟨⟨h1, h2⟩, h3⟩, h4⟩ := hc
  simp only [validateCenter, isPointInWafer, decide_eq_true_eq]
  nlinarith [h1, h3, mul_self_nonneg (w / 2), mul_self_nonneg (h / 2)]

/-- Helper: the optimized corner check also implies the center check. -/
lemma optCorner_implies_center (R cx cy w h : ℚ) (hw : 0 ≤ w) (hh : 0 ≤ h)
    (hc : optValidateCorner R cx cy w h = true) : validateCenter R cx cy = true := by
  rw [optValidateCorner] at hc
  split_ifs at hc with hfar
  · simp only [validateCenter, isPointInWafer, decide_eq_true_eq]
    nlinarith [abs_mul_abs_self cx, abs_mul_abs_self cy, abs_nonneg cx, abs_nonneg cy,
      hfar, hw, hh]
  · exact corner_implies_center R cx cy w h hc

/-- Indicator monotonicity. -/
lemma ite_one_zero_le {P Q : Prop} (dP : Decidable P) (dQ : Decidable Q) (h : P → Q) :
    @ite ℕ P dP 1 0 ≤ @ite ℕ Q dQ 1 0 := by
  by_cases hP : P
  · rw [if_pos hP, if_pos (h hP)]
  · rw [if_neg hP]
    exact Nat.zero_le _

/-- Guarded monotonicity (shared guard, zero fallback). -/
lemma ite_le_ite_zero {c : Prop} [Decidable c] {a b : ℕ} (h : a ≤ b) :
    (if c then a else 0) ≤ (if c then b else 0) := by
  split_ifs
  · exact h
  · exact le_refl 0

/-- Guarded monotonicity (shared guard, zero on the guard). -/
lemma ite_zero_le_ite_zero {c : Prop} [Decidable c] {a b : ℕ} (h : a ≤ b) :
    (if c then 0 else a) ≤ (if c then 0 else b) := by
  split_ifs
  · exact le_refl 0
  · exact h

/-- The standard engine count is monotone in the validity predicate. -/
lemma stdCount_mono (opt : Bool) {V1 V2 : ℤ → ℤ → Prop}
    (d1 : ∀ i j, Decidable (V1 i j)) (d2 : ∀ i j, Decidable (V2 i j))
    (R px py : ℚ) (himp : ∀ i j, V1 i j → V2 i j) :
    stdCount opt V1 d1 R px py ≤ stdCount opt V2 d2 R px py := by
  rw [stdCount, stdCount]
  split_ifs
  · exact Finset.sum_le_sum fun i _ => Finset.sum_le_sum fun j _ =>
      ite_le_ite_zero (ite_one_zero_le _ _ (himp i j))
  · exact Finset.sum_le_sum fun i _ => Finset.sum_le_sum fun j _ =>
      ite_one_zero_le _ _ (himp i j)

/-- The optimized quadrant count is monotone in the validity predicate. -/
lemma optQuadCount_mono {V1 V2 : ℤ → ℤ → Prop}
    (d1 : ∀ i j, Decidable (V1 i j)) (d2 : ∀ i j, Decidable (V2 i j))
    (R px py : ℚ) (himp : ∀ i j, V1 i j → V2 i j) :
    optQuadCount V1 d1 R px py ≤ optQuadCount V2 d2 R px py := by
  rw [optQuadCount, optQuadCount]
  exact Finset.sum_le_sum fun i _ => ite_zero_le_ite_zero
    (Finset.sum_le_sum fun j _ =>
      Nat.mul_le_mul_left _ (ite_one_zero_le _ _ (himp i j)))

/-- The optimized full (notch) count is monotone in the validity predicate. -/
lemma optNotchCount_mono {V1 V2 : ℤ → ℤ → Prop}
    (d1 : ∀ i j, Decidable (V1 i j)) (d2 : ∀ i j, Decidable (V2 i j))
    (R px py : ℚ) (himp : ∀ i j, V1 i j → V2 i j) :
    optNotchCount V1 d1 R px py ≤ optNotchCount V2 d2 R px py := by
  rw [optNotchCount, optNotchCount]
  exact Finset.sum_le_sum fun i _ => ite_zero_le_ite_zero
    (Finset.sum_le_sum fun j _ => ite_one_zero_le _ _ (himp i j))

/-- Pointwise policy ordering for the standard per-position validity. -/
lemma stdValidAt_strict_le_corner (p : Params) (i j : ℤ) :
    stdValidAt p .strict i j → stdValidAt p .corner i j := fun hs =>
  ⟨hs.1, strict_implies_corner _ _ _ _ _ hs.2⟩

/-- Pointwise policy ordering for the standard per-position validity. -/
lemma stdValidAt_corner_le_center (p : Params) (i j : ℤ) :
    stdValidAt p .corner i j → stdValidAt p .center i j := fun hc =>
  ⟨hc.1, corner_implies_center _ _ _ _ _ hc.2⟩

/-- Pointwise policy ordering for the optimized per-position validity. -/
lemma optValidAt_strict_le_corner (p : Params) (i j : ℤ) :
    optValidAt p .strict i j → optValidAt p .corner i j := by
  rw [optValidAt, optValidAt, optAccept, optAccept]
  simp only [Bool.and_eq_true, Bool.not_eq_eq_eq_not, Bool.not_true]
  rintro ⟨hn, hs⟩
  refine ⟨hn, ?_⟩
  rw [optValidateStrict] at hs
  rw [optValidateCorner]
  split_ifs with hfar
  · rfl
  · exact hs

/-- Pointwise policy ordering for the optimized per-position validity. -/
lemma optValidAt_corner_le_center (p : Params) (i j : ℤ) (hdx : 0 ≤ p.dieX)
    (hdy : 0 ≤ p.dieY) :
    optValidAt p .corner i j → optValidAt p .center i j := by
  rw [optValidAt, optValidAt, optAccept, optAccept]
  simp only [Bool.and_eq_true, Bool.not_eq_eq_eq_not, Bool.not_true]
  rintro ⟨hn, hc⟩
  exact ⟨hn, optCorner_implies_center _ _ _ _ _ (by positivity) (by positivity) hc⟩

/-- Claim C4: outside the notch, strict acceptance implies corner acceptance
implies center acceptance, and consequently the engine totals are ordered
`Strict <= Corner <= Center` (standard engine on either enumeration path,
and optimized engine). -/
theorem claim_C4_policy_ordering (nt : Notch) (rw d R cx cy w h : ℚ)
    (hw : 0 < w) (hh : 0 < h) (p : Params)
    (hdx : 0 < p.dieX) (hdy : 0 < p.dieY) (opt : Bool)
    (rS rC rCe sS sC sCe : ResultQ) :
    ((stdAccept nt rw d R .strict cx cy w h → stdAccept nt rw d R .corner cx cy w h) ∧
     (stdAccept nt rw d R .corner cx cy w h → stdAccept nt rw d R .center cx cy w h)) ∧
    (stdCalculate (stdValidAt p .strict) (stdDec p .strict) opt p = .ok rS →
     stdCalculate (stdValidAt p .corner) (stdDec p .corner) opt p = .ok rC →
     stdCalculate (stdValidAt p .center) (stdDec p .center) opt p = .ok rCe →
     rS.totalDies ≤ rC.totalDies ∧ rC.totalDies ≤ rCe.totalDies) ∧
    (optCalculate (optValidAt p .strict) (optDec p .strict) p = .ok sS →
     optCalculate (optValidAt p .corner) (optDec p .corner) p = .ok sC →
     optCalculate (optValidAt p .center) (optDec p .center) p = .ok sCe →
     sS.totalDies ≤ sC.totalDies ∧ sC.totalDies ≤ sCe.totalDies) := by
  refine ⟨⟨fun hs => ⟨hs.1, strict_implies_corner _ _ _ _ _ hs.2⟩,
           fun hc => ⟨hc.1, corner_implies_center _ _ _ _ _ hc.2⟩⟩, ?_, ?_⟩
  · intro hS hC hCe
    rw [stdCalculate] at hS hC hCe
    split_ifs at hS hC hCe
    obtain rfl := Except.ok.inj hS
    obtain rfl := Except.ok.inj hC
    obtain rfl := Except.ok.inj hCe
    exact ⟨stdCount_mono opt _ _ _ _ _ (stdValidAt_strict_le_corner p),
           stdCount_mono opt _ _ _ _ _ (stdValidAt_corner_le_center p)⟩
  · intro hS hC hCe
    rw [optCalculate] at hS hC hCe
    split_ifs at hS hC hCe
    · obtain rfl := Except.ok.inj hS
      obtain rfl := Except.ok.inj hC
      obtain rfl := Except.ok.inj hCe
      exact ⟨optQuadCount_mono _ _ _ _ _ (optValidAt_strict_le_corner p),
             optQuadCount_mono _ _ _ _ _
               (fun i j => optValidAt_corner_le_center p i j hdx.le hdy.le)⟩
    · obtain rfl := Except.ok.inj hS
      obtain rfl := Except.ok.inj hC
      obtain rfl := Except.ok.inj hCe
      exact ⟨optNotchCount_mono _ _ _ _ _ (optValidAt_strict_le_corner p),
             optNotchCount_mono _ _ _ _ _
               (fun i j => optValidAt_corner_le_center p i j hdx.le hdy.le)⟩

/-- Witness for C4 at a concrete geometry and parameter bundle. -/
theorem claim_C4_policy_ordering_witness :
    ((0 : ℚ) < 2 ∧ (0 : ℚ) < 2 ∧ (0 : ℚ) < paramsC1.dieX ∧ (0 : ℚ) < paramsC1.dieY) ∧
    ((stdAccept .none_ 100 1 97 .strict 0 0 2 2 → stdAccept .none_ 100 1 97 .corner 0 0 2 2) ∧
     (stdAccept .none_ 100 1 97 .corner 0 0 2 2 → stdAccept .none_ 100 1 97 .center 0 0 2 2)) :=
  ⟨⟨by norm_num, by norm_num, by norm_num [paramsC1], by norm_num [paramsC1]⟩,
   (claim_C4_policy_ordering .none_ 100 1 97 0 0 2 2 (by norm_num) (by norm_num)
     paramsC1 (by norm_num [paramsC1]) (by norm_num [paramsC1]) false
     ⟨0, 0⟩ ⟨0, 0⟩ ⟨0, 0⟩ ⟨0, 0⟩ ⟨0, 0⟩ ⟨0, 0⟩).1⟩

/-- A strip contribution is nonnegative. -/
lemma stripContribution_nonneg (left right radius y dy : ℝ) (hdy : 0 ≤ dy) :
    0 ≤ stripContribution left right radius y dy := by
  rw [stripContribution]
  split_ifs with h1 h2
  · exact le_refl 0
  · exact mul_nonneg (by linarith) hdy
  · exact le_refl 0

/-- A strip contribution is at most the full strip `(right - left) * dy`. -/
lemma stripContribution_le (left right radius y dy : ℝ)
    (hlr : left ≤ right) (hdy : 0 ≤ dy) :
    stripContribution left right radius y dy ≤ (right - left) * dy := by
  have hrl : (0 : ℝ) ≤ right - left := by linarith
  rw [stripContribution]
  split_ifs with h1 h2
  · exact mul_nonneg hrl hdy
  · refine mul_le_mul_of_nonneg_right ?_ hdy
    have ha := le_max_left left (-Real.sqrt (radius * radius - y * y))
    have hb := min_le_left right (Real.sqrt (radius * radius - y * y))
    linarith
  · exact mul_nonneg hrl hdy

/-- The strip scan is nonnegative. -/
lemma computeExactIntersection_nonneg (left right bottom top radius : ℝ) :
    0 ≤ computeExactIntersection left right bottom top radius := by
  rw [computeExactIntersection]
  split_ifs with hy
  · exact le_refl 0
  · push_neg at hy
    exact Finset.sum_nonneg fun i _ =>
      stripContribution_nonneg _ _ _ _ _ (by linarith)

/-- The strip scan never exceeds the area of the bounding rectangle. -/
lemma computeExactIntersection_le (left right bottom top radius : ℝ)
    (hlr : left ≤ right) (hbt : bottom ≤ top) :
    computeExactIntersection left right bottom top radius ≤
      (right - left) * (top - bottom) := by
  rw [computeExactIntersection]
  split_ifs with hy
  · exact mul_nonneg (by linarith) (by linarith)
  · push_neg at hy
    have hdy : (0 : ℝ) ≤ (min top radius - max bottom (-radius)) / 100 := by linarith
    calc
      ∑ i ∈ Finset.range 100,
          stripContribution left right radius
            (max bottom (-radius) +
              ((i : ℝ) + 1 / 2) * ((min top radius - max bottom (-radius)) / 100))
            ((min top radius - max bottom (-radius)) / 100) ≤
          ∑ i ∈ Finset.range 100,
            (right - left) * ((min top radius - max bottom (-radius)) / 100) :=
        Finset.sum_le_sum fun i _ => stripContribution_le _ _ _ _ _ hlr hdy
      _ = (right - left) * (min top radius - max bottom (-radius)) := by
        rw [Finset.sum_const, Finset.card_range]
        push_cast
        ring
      _ ≤ (right - left) * (top - bottom) := by
        refine mul_le_mul_of_nonneg_left ?_ (by linarith)
        have h1 : min top radius ≤ top := min_le_left _ _
        have h2 : bottom ≤ max bottom (-radius) := le_max_left _ _
        linarith

/-- Bounds for the exact intersection area (shared helper). -/
lemma rectangleCircleIntersectionArea_bounds (cx cy w h radius : ℝ)
    (hw : 0 ≤ w) (hh : 0 ≤ h) :
    0 ≤ rectangleCircleIntersectionArea cx cy w h radius ∧
    rectangleCircleIntersectionArea cx cy w h radius ≤ w * h := by
  have hwh : (0 : ℝ) ≤ w * h := mul_nonneg hw hh
  simp only [rectangleCircleIntersectionArea]
  split_ifs with hall hin
  · exact ⟨le_refl 0, hwh⟩
  · exact ⟨hwh, le_refl _⟩
  · refine ⟨computeExactIntersection_nonneg _ _ _ _ _, ?_⟩
    have hb := computeExactIntersection_le (cx - w / 2) (cx + w / 2) (cy - h / 2)
      (cy + h / 2) radius (by linarith) (by linarith)
    calc computeExactIntersection (cx - w / 2) (cx + w / 2) (cy - h / 2)
          (cy + h / 2) radius ≤
        (cx + w / 2 - (cx - w / 2)) * (cy + h / 2 - (cy - h / 2)) := hb
      _ = w * h := by ring

/-- Claim C7: the exact rectangle/circle intersection area is never negative
and never exceeds the rectangle area, and when all four corner distances are
at most the radius it returns exactly `w * h`. -/
theorem claim_C7_area_bounds (cx cy w h radius : ℝ)
    (hw : 0 ≤ w) (hh : 0 ≤ h) (hr : 0 ≤ radius) :
    (0 ≤ rectangleCircleIntersectionArea cx cy w h radius ∧
     rectangleCircleIntersectionArea cx cy w h radius ≤ w * h) ∧
    ((Real.sqrt ((cx - w / 2) * (cx - w / 2) + (cy - h / 2) * (cy - h / 2)) ≤ radius ∧
      Real.sqrt ((cx + w / 2) * (cx + w / 2) + (cy - h / 2) * (cy - h / 2)) ≤ radius ∧
      Real.sqrt ((cx + w / 2) * (cx + w / 2) + (cy + h / 2) * (cy + h / 2)) ≤ radius ∧
      Real.sqrt ((cx - w / 2) * (cx - w / 2) + (cy + h / 2) * (cy + h / 2)) ≤ radius) →
      rectangleCircleIntersectionArea cx cy w h radius = w * h) := by
  refine ⟨rectangleCircleIntersectionArea_bounds cx cy w h radius hw hh, ?_⟩
  intro hcor
  simp only [rectangleCircleIntersectionArea]
  split_ifs with hall
  · exact absurd hcor.1 (not_le.mpr hall.1)
  · rfl

/-- Witness for C7 at the unit square centered at the origin in a circle of
radius 2. -/
theorem claim_C7_area_bounds_witness :
    ((0 : ℝ) ≤ 1 ∧ (0 : ℝ) ≤ 1 ∧ (0 : ℝ) ≤ 2) ∧
    (0 ≤ rectangleCircleIntersectionArea 0 0 1 1 2 ∧
     rectangleCircleIntersectionArea 0 0 1 1 2 ≤ 1 * 1) :=
  ⟨⟨by norm_num, by norm_num, by norm_num⟩,
   (claim_C7_area_bounds 0 0 1 1 2 (by norm_num) (by norm_num) (by norm_num)).1⟩

/-- Radius monotonicity of the squared circle half-width at moving strip
midpoints: if each midpoint stays within its radius and moves at most as
fast as the radii differ, the squared half-width grows with the radius. -/
lemma sq_halfwidth_mono (y1 y2 R1 R2 : ℝ) (h1 : |y1| ≤ R1) (h2 : |y2| ≤ R2)
    (h12 : |y1 - y2| ≤ R1 - R2) :
    R2 * R2 - y2 * y2 ≤ R1 * R1 - y1 * y1 := by
  have hR12 : 0 ≤ R1 - R2 := le_trans (abs_nonneg _) h12
  rcases le_or_lt |y1| |y2| with hc | hc
  · have hy : y1 * y1 ≤ y2 * y2 := by
      nlinarith [abs_mul_abs_self y1, abs_mul_abs_self y2, abs_nonneg y1]
    nlinarith [abs_nonneg y2]
  · have hA : |y1| - |y2| ≤ R1 - R2 := le_trans (abs_sub_abs_le_abs_sub y1 y2) h12
    have hB : |y1| + |y2| ≤ R1 + R2 := add_le_add h1 h2
    have hprod : (|y1| - |y2|) * (|y1| + |y2|) ≤ (R1 - R2) * (R1 + R2) :=
      mul_le_mul hA hB (by positivity) hR12
    nlinarith [hprod, abs_mul_abs_self y1, abs_mul_abs_self y2]

/-- Strip midpoints lie within the clipped band, hence within the radius. -/
lemma midpoint_abs_le (b t R : ℝ) (i : ℕ) (hi : i < 100)
    (hnd : max b (-R) < min t R) :
    |max b (-R) + ((i : ℝ) + 1 / 2) * ((min t R - max b (-R)) / 100)| ≤ R := by
  have hSE : max b (-R) ≤ min t R := hnd.le
  have hS : -R ≤ max b (-R) := le_max_right _ _
  have hE : min t R ≤ R := min_le_right _ _
  have hi' : (i : ℝ) ≤ 99 := by exact_mod_cast Nat.lt_succ_iff.mp hi
  have hl0 : (0 : ℝ) ≤ ((i : ℝ) + 1 / 2) / 100 := by positivity
  have hl1 : ((i : ℝ) + 1 / 2) / 100 ≤ 1 := by linarith
  rw [abs_le]
  constructor
  · nlinarith [mul_nonneg hl0 (sub_nonneg.mpr hSE)]
  · nlinarith [mul_nonneg (sub_nonneg.mpr hl1) (sub_nonneg.mpr hSE)]

/-- Strip midpoints move at most as fast as the radius. -/
lemma midpoint_lipschitz (b t R1 R2 : ℝ) (h12 : R2 ≤ R1) (i : ℕ) (hi : i < 100) :
    |(max b (-R1) + ((i : ℝ) + 1 / 2) * ((min t R1 - max b (-R1)) / 100)) -
     (max b (-R2) + ((i : ℝ) + 1 / 2) * ((min t R2 - max b (-R2)) / 100))| ≤
      R1 - R2 := by
  have hS : |max b (-R1) - max b (-R2)| ≤ R1 - R2 := by
    have := abs_max_sub_max_le_abs (-R1) (-R2) b
    rw [max_comm b (-R1), max_comm b (-R2)]
    calc |max (-R1) b - max (-R2) b| ≤ |(-R1) - (-R2)| := this
      _ = R1 - R2 := by rw [abs_of_nonpos (by linarith)]; ring
  have hE : |min t R1 - min t R2| ≤ R1 - R2 := by
    calc |min t R1 - min t R2| ≤ max |t - t| |R1 - R2| := abs_min_sub_min_le_max t R1 t R2
      _ = |R1 - R2| := by simp
      _ = R1 - R2 := abs_of_nonneg (by linarith)
  have hi' : (i : ℝ) ≤ 99 := by exact_mod_cast Nat.lt_succ_iff.mp hi
  have hl0 : (0 : ℝ) ≤ ((i : ℝ) + 1 / 2) / 100 := by positivity
  have hl1 : ((i : ℝ) + 1 / 2) / 100 ≤ 1 := by linarith
  have hexp :
      (max b (-R1) + ((i : ℝ) + 1 / 2) * ((min t R1 - max b (-R1)) / 100)) -
        (max b (-R2) + ((i : ℝ) + 1 / 2) * ((min t R2 - max b (-R2)) / 100)) =
      (1 - ((i : ℝ) + 1 / 2) / 100) * (max b (-R1) - max b (-R2)) +
        (((i : ℝ) + 1 / 2) / 100) * (min t R1 - min t R2) := by
    ring
  rw [hexp]
  calc |(1 - ((i : ℝ) + 1 / 2) / 100) * (max b (-R1) - max b (-R2)) +
        (((i : ℝ) + 1 / 2) / 100) * (min t R1 - min t R2)| ≤
      |(1 - ((i : ℝ) + 1 / 2) / 100) * (max b (-R1) - max b (-R2))| +
        |(((i : ℝ) + 1 / 2) / 100) * (min t R1 - min t R2)| := abs_add _ _
    _ = (1 - ((i : ℝ) + 1 / 2) / 100) * |max b (-R1) - max b (-R2)| +
        (((i : ℝ) + 1 / 2) / 100) * |min t R1 - min t R2| := by
      rw [abs_mul, abs_mul, abs_of_nonneg (by linarith), abs_of_nonneg hl0]
    _ ≤ (1 - ((i : ℝ) + 1 / 2) / 100) * (R1 - R2) +
        (((i : ℝ) + 1 / 2) / 100) * (R1 - R2) := by
      exact add_le_add (mul_le_mul_of_nonneg_left hS (by linarith))
        (mul_le_mul_of_nonneg_left hE hl0)
    _ = R1 - R2 := by ring

/-- A strip's contribution is monotone along the radius flow. -/
lemma stripContribution_mono (left right R1 R2 y1 y2 dy1 dy2 : ℝ)
    (hR2 : 0 ≤ R2) (hR12 : R2 ≤ R1) (hdy2 : 0 ≤ dy2) (hdy : dy2 ≤ dy1)
    (hsq : R2 * R2 - y2 * y2 ≤ R1 * R1 - y1 * y1) :
    stripContribution left right R2 y2 dy2 ≤ stripContribution left right R1 y1 dy1 := by
  by_cases hskip2 : R2 ≤ |y2|
  · rw [stripContribution, if_pos hskip2]
    exact stripContribution_nonneg _ _ _ _ _ (le_trans hdy2 hdy)
  · push_neg at hskip2
    have hpos2 : 0 < R2 * R2 - y2 * y2 := by
      nlinarith [abs_mul_abs_self y2, abs_nonneg y2]
    have hpos1 : 0 < R1 * R1 - y1 * y1 := lt_of_lt_of_le hpos2 hsq
    have hskip1 : |y1| < R1 := by
      nlinarith [abs_mul_abs_self y1, abs_nonneg y1]
    have hcw : Real.sqrt (R2 * R2 - y2 * y2) ≤ Real.sqrt (R1 * R1 - y1 * y1) :=
      Real.sqrt_le_sqrt hsq
    rw [stripContribution, stripContribution,
      if_neg (not_le.mpr hskip2), if_neg (not_le.mpr hskip1)]
    have h_il : max left (-Real.sqrt (R1 * R1 - y1 * y1)) ≤
        max left (-Real.sqrt (R2 * R2 - y2 * y2)) :=
      max_le_max (le_refl _) (by linarith)
    have h_ir : min right (Real.sqrt (R2 * R2 - y2 * y2)) ≤
        min right (Real.sqrt (R1 * R1 - y1 * y1)) :=
      min_le_min (le_refl _) hcw
    split_ifs with ho2 ho1 ho1
    · exact mul_le_mul (by linarith) hdy hdy2 (by linarith)
    · exact absurd (lt_of_le_of_lt h_il (lt_of_lt_of_le ho2 h_ir)) ho1
    · exact mul_nonneg (by linarith) (le_trans hdy2 hdy)
    · exact le_refl 0

/-- The midpoint scan is monotone in the radius. -/
lemma computeExactIntersection_mono (left right b t R1 R2 : ℝ)
    (h2 : 0 ≤ R2) (h12 : R2 ≤ R1) :
    computeExactIntersection left right b t R2 ≤
      computeExactIntersection left right b t R1 := by
  have hS : max b (-R1) ≤ max b (-R2) := max_le_max (le_refl _) (by linarith)
  have hE : min t R2 ≤ min t R1 := min_le_min (le_refl _) h12
  rw [computeExactIntersection, computeExactIntersection]
  split_ifs with hd2 hd1 hd1
  · exact le_refl 0
  · push_neg at hd1
    exact Finset.sum_nonneg fun i _ =>
      stripContribution_nonneg _ _ _ _ _ (by linarith)
  · push_neg at hd2
    exact absurd (by linarith : min t R1 ≤ max b (-R1)) (by push_neg; linarith)
  · push_neg at hd2 hd1
    refine Finset.sum_le_sum fun i hi => ?_
    have hi' : i < 100 := Finset.mem_range.mp hi
    refine stripContribution_mono _ _ _ _ _ _ _ _ h2 h12 (by linarith) (by linarith)
      (sq_halfwidth_mono _ _ _ _ (midpoint_abs_le b t R1 i hi' hd1)
        (midpoint_abs_le b t R2 i hi' hd2) (midpoint_lipschitz b t R1 R2 h12 i hi'))

/-- The exact intersection area is monotone in the radius. -/
lemma rectangleCircleIntersectionArea_mono (cx cy w h R1 R2 : ℝ)
    (hw : 0 ≤ w) (hh : 0 ≤ h) (h2 : 0 ≤ R2) (h12 : R2 ≤ R1) :
    rectangleCircleIntersectionArea cx cy w h R2 ≤
      rectangleCircleIntersectionArea cx cy w h R1 := by
  have hwh : (0 : ℝ) ≤ w * h := mul_nonneg hw hh
  simp only [rectangleCircleIntersectionArea]
  set d1 := Real.sqrt ((cx - w / 2) * (cx - w / 2) + (cy - h / 2) * (cy - h / 2))
  set d2 := Real.sqrt ((cx + w / 2) * (cx + w / 2) + (cy - h / 2) * (cy - h / 2))
  set d3 := Real.sqrt ((cx + w / 2) * (cx + w / 2) + (cy + h / 2) * (cy + h / 2))
  set d4 := Real.sqrt ((cx - w / 2) * (cx - w / 2) + (cy + h / 2) * (cy + h / 2))
  by_cases hao2 : R2 < d1 ∧ R2 < d2 ∧ R2 < d3 ∧ R2 < d4
  · rw [if_pos hao2]
    split_ifs with h1 h2'
    · exact le_refl 0
    · exact hwh
    · exact computeExactIntersection_nonneg _ _ _ _ _
  · rw [if_neg hao2]
    by_cases hai2 : d1 ≤ R2 ∧ d2 ≤ R2 ∧ d3 ≤ R2 ∧ d4 ≤ R2
    · rw [if_pos hai2]
      have hai1 : d1 ≤ R1 ∧ d2 ≤ R1 ∧ d3 ≤ R1 ∧ d4 ≤ R1 :=
        ⟨le_trans hai2.1 h12, le_trans hai2.2.1 h12,
         le_trans hai2.2.2.1 h12, le_trans hai2.2.2.2 h12⟩
      rw [if_neg (fun hc => absurd hai1.1 (not_le.mpr hc.1)), if_pos hai1]
    · rw [if_neg hai2]
      split_ifs with hao1 hai1
      · exact absurd ⟨lt_of_le_of_lt h12 hao1.1, lt_of_le_of_lt h12 hao1.2.1,
          lt_of_le_of_lt h12 hao1.2.2.1, lt_of_le_of_lt h12 hao1.2.2.2⟩ hao2
      · calc computeExactIntersection (cx - w / 2) (cx + w / 2) (cy - h / 2)
              (cy + h / 2) R2 ≤
            (cx + w / 2 - (cx - w / 2)) * (cy + h / 2 - (cy - h / 2)) :=
          computeExactIntersection_le _ _ _ _ _ (by linarith) (by linarith)
          _ = w * h := by ring
      · exact computeExactIntersection_mono _ _ _ _ _ _ h2 h12

/-- The clamped intersection ratio is monotone in the radius. -/
lemma rectangleCircleIntersectionRatio_mono (cx cy w h R1 R2 : ℝ)
    (hw : 0 ≤ w) (hh : 0 ≤ h) (h2 : 0 ≤ R2) (h12 : R2 ≤ R1) :
    rectangleCircleIntersectionRatio cx cy w h R2 ≤
      rectangleCircleIntersectionRatio cx cy w h R1 := by
  simp only [rectangleCircleIntersectionRatio]
  split_ifs with hz
  · exact le_refl 0
  · refine min_le_min (le_refl 1) ?_
    exact div_le_div_of_nonneg_right
      (rectangleCircleIntersectionArea_mono cx cy w h R1 R2 hw hh h2 h12)
      (mul_nonneg hw hh)

/-- The point-in-wafer test is monotone in the radius. -/
lemma isPointInWafer_mono (R1 R2 x y : ℚ) (h2 : 0 ≤ R2) (h12 : R2 ≤ R1)
    (h : isPointInWafer R2 x y = true) : isPointInWafer R1 x y = true := by
  rw [isPointInWafer, decide_eq_true_eq] at h ⊢
  nlinarith [h]

/-- Standard per-rectangle acceptance is monotone in the effective radius,
for every validation method. -/
lemma stdAccept_mono_R (nt : Notch) (rw d R1 R2 : ℚ) (m : Method) (cx cy w h : ℚ)
    (hw : 0 ≤ w) (hh : 0 ≤ h) (h2 : 0 ≤ R2) (h12 : R2 ≤ R1)
    (hacc : stdAccept nt rw d R2 m cx cy w h) : stdAccept nt rw d R1 m cx cy w h := by
  obtain ⟨hn, hv⟩ := hacc
  refine ⟨hn, ?_⟩
  cases m with
  | center => exact isPointInWafer_mono R1 R2 _ _ h2 h12 hv
  | corner =>
      simp only [validateCorner, Bool.and_eq_true] at hv ⊢
      exact ⟨⟨⟨isPointInWafer_mono R1 R2 _ _ h2 h12 hv.1.1.1,
        isPointInWafer_mono R1 R2 _ _ h2 h12 hv.1.1.2⟩,
        isPointInWafer_mono R1 R2 _ _ h2 h12 hv.1.2⟩,
        isPointInWafer_mono R1 R2 _ _ h2 h12 hv.2⟩
  | strict =>
      simp only [validateStrict, Bool.and_eq_true] at hv ⊢
      refine ⟨⟨⟨⟨⟨⟨⟨?_, ?_⟩, ?_⟩, ?_⟩, ?_⟩, ?_⟩, ?_⟩, ?_⟩ <;>
        exact isPointInWafer_mono R1 R2 _ _ h2 h12 (by tauto)
  | area =>
      refine lt_of_lt_of_le hv ?_
      exact rectangleCircleIntersectionRatio_mono _ _ _ _ _ _
        (by exact_mod_cast hw) (by exact_mod_cast hh)
        (by exact_mod_cast h2) (by exact_mod_cast h12)

/-- Python `int` is monotone on nonnegative arguments. -/
lemma pyInt_mono_nonneg {q1 q2 : ℚ} (h0 : 0 ≤ q1) (h : q1 ≤ q2) :
    pyInt q1 ≤ pyInt q2 := by
  rw [pyInt_ofNonneg h0, pyInt_ofNonneg (le_trans h0 h)]
  exact Int.floor_le_floor h

/-- Python floor division by 2 is monotone. -/
lemma fdiv_two_mono {a b : ℤ} (h : a ≤ b) : Int.fdiv a 2 ≤ Int.fdiv b 2 := by
  rw [Int.fdiv_eq_ediv _ (by norm_num), Int.fdiv_eq_ediv _ (by norm_num)]
  exact Int.ediv_le_ediv (by norm_num) h

/-- The SpatialOptimizer pre-filter is monotone in the radius bound. -/
lemma sqrtLePlusSqrt_mono (A c1 c2 B : ℚ) (h0 : 0 ≤ c2) (hc : c2 ≤ c1) (hB : 0 ≤ B)
    (h : sqrtLePlusSqrt A c2 B = true) : sqrtLePlusSqrt A c1 B = true := by
  simp only [sqrtLePlusSqrt, Bool.or_eq_true, decide_eq_true_eq] at h ⊢
  rcases h with h | h
  · left
    nlinarith
  · by_cases h0' : A - c1 * c1 - B ≤ 0
    · exact Or.inl h0'
    · right
      push_neg at h0'
      have hle : A - c1 * c1 - B ≤ A - c2 * c2 - B := by nlinarith
      calc (A - c1 * c1 - B) * (A - c1 * c1 - B) ≤
          (A - c2 * c2 - B) * (A - c2 * c2 - B) := mul_self_le_mul_self h0'.le hle
        _ ≤ 4 * (c2 * c2) * B := h
        _ ≤ 4 * (c1 * c1) * B := by nlinarith

/-- The standard engine count grows when the effective radius grows (the
index window widens, the pre-filter threshold loosens, and the per-position
validity only gains with the radius). -/
lemma stdCount_mono_R (opt : Bool) {V1 V2 : ℤ → ℤ → Prop}
    (d1 : ∀ i j, Decidable (V1 i j)) (d2 : ∀ i j, Decidable (V2 i j))
    (R1 R2 px py : ℚ) (hpx : 0 < px) (hpy : 0 < py) (h2 : 0 < R2) (h12 : R2 ≤ R1)
    (himp : ∀ i j, V2 i j → V1 i j) :
    stdCount opt V2 d2 R2 px py ≤ stdCount opt V1 d1 R1 px py := by
  have hmx : pyInt (2 * R2 / px) ≤ pyInt (2 * R1 / px) :=
    pyInt_mono_nonneg (by positivity)
      (div_le_div_of_nonneg_right (by linarith) hpx.le)
  have hmy : pyInt (2 * R2 / py) ≤ pyInt (2 * R1 / py) :=
    pyInt_mono_nonneg (by positivity)
      (div_le_div_of_nonneg_right (by linarith) hpy.le)
  rw [stdCount, stdCount]
  split_ifs
  · -- SpatialOptimizer path
    have hsubI : Finset.Icc (Int.fdiv (-(pyInt (2 * R2 / px) + 2)) 2)
        (Int.fdiv (pyInt (2 * R2 / px) + 2) 2) ⊆
        Finset.Icc (Int.fdiv (-(pyInt (2 * R1 / px) + 2)) 2)
        (Int.fdiv (pyInt (2 * R1 / px) + 2) 2) :=
      Finset.Icc_subset_Icc (fdiv_two_mono (by linarith)) (fdiv_two_mono (by linarith))
    have hsubJ : Finset.Icc (Int.fdiv (-(pyInt (2 * R2 / py) + 2)) 2)
        (Int.fdiv (pyInt (2 * R2 / py) + 2) 2) ⊆
        Finset.Icc (Int.fdiv (-(pyInt (2 * R1 / py) + 2)) 2)
        (Int.fdiv (pyInt (2 * R1 / py) + 2) 2) :=
      Finset.Icc_subset_Icc (fdiv_two_mono (by linarith)) (fdiv_two_mono (by linarith))
    calc
      ∑ i ∈ Finset.Icc (Int.fdiv (-(pyInt (2 * R2 / px) + 2)) 2)
          (Int.fdiv (pyInt (2 * R2 / px) + 2) 2),
        ∑ j ∈ Finset.Icc (Int.fdiv (-(pyInt (2 * R2 / py) + 2)) 2)
            (Int.fdiv (pyInt (2 * R2 / py) + 2) 2),
          (if sqrtLePlusSqrt (((i : ℚ) * px) * ((i : ℚ) * px) +
                ((j : ℚ) * py) * ((j : ℚ) * py)) R2
              ((px / 2) * (px / 2) + (py / 2) * (py / 2)) then
            @ite ℕ (V2 i j) (d2 i j) 1 0
          else 0) ≤
        ∑ i ∈ Finset.Icc (Int.fdiv (-(pyInt (2 * R2 / px) + 2)) 2)
            (Int.fdiv (pyInt (2 * R2 / px) + 2) 2),
          ∑ j ∈ Finset.Icc (Int.fdiv (-(pyInt (2 * R2 / py) + 2)) 2)
              (Int.fdiv (pyInt (2 * R2 / py) + 2) 2),
            (if sqrtLePlusSqrt (((i : ℚ) * px) * ((i : ℚ) * px) +
                  ((j : ℚ) * py) * ((j : ℚ) * py)) R1
                ((px / 2) * (px / 2) + (py / 2) * (py / 2)) then
              @ite ℕ (V1 i j) (d1 i j) 1 0
            else 0) := by
        refine Finset.sum_le_sum fun i _ => Finset.sum_le_sum fun j _ => ?_
        by_cases hf : sqrtLePlusSqrt (((i : ℚ) * px) * ((i : ℚ) * px) +
            ((j : ℚ) * py) * ((j : ℚ) * py)) R2
            ((px / 2) * (px / 2) + (py / 2) * (py / 2)) = true
        · rw [if_pos hf, if_pos (sqrtLePlusSqrt_mono _ _ _ _ h2.le h12
            (by positivity) hf)]
          exact ite_one_zero_le _ _ (himp i j)
        · rw [if_neg hf]
          exact Nat.zero_le _
      _ ≤ _ := by
        refine le_trans (Finset.sum_le_sum fun i _ =>
          Finset.sum_le_sum_of_subset_of_nonneg hsubJ fun _ _ _ => ?_)
          (Finset.sum_le_sum_of_subset_of_nonneg hsubI fun _ _ _ =>
            Finset.sum_nonneg fun _ _ => ?_)
        · positivity
        · positivity
  · -- traditional path
    have hsubI : Finset.Icc (Int.fdiv (-(pyInt (2 * R2 / px) + 1)) 2)
        (Int.fdiv (pyInt (2 * R2 / px) + 1) 2) ⊆
        Finset.Icc (Int.fdiv (-(pyInt (2 * R1 / px) + 1)) 2)
        (Int.fdiv (pyInt (2 * R1 / px) + 1) 2) :=
      Finset.Icc_subset_Icc (fdiv_two_mono (by linarith)) (fdiv_two_mono (by linarith))
    have hsubJ : Finset.Icc (Int.fdiv (-(pyInt (2 * R2 / py) + 1)) 2)
        (Int.fdiv (pyInt (2 * R2 / py) + 1) 2) ⊆
        Finset.Icc (Int.fdiv (-(pyInt (2 * R1 / py) + 1)) 2)
        (Int.fdiv (pyInt (2 * R1 / py) + 1) 2) :=
      Finset.Icc_subset_Icc (fdiv_two_mono (by linarith)) (fdiv_two_mono (by linarith))
    calc
      ∑ i ∈ Finset.Icc (Int.fdiv (-(pyInt (2 * R2 / px) + 1)) 2)
          (Int.fdiv (pyInt (2 * R2 / px) + 1) 2),
        ∑ j ∈ Finset.Icc (Int.fdiv (-(pyInt (2 * R2 / py) + 1)) 2)
            (Int.fdiv (pyInt (2 * R2 / py) + 1) 2),
          @ite ℕ (V2 i j) (d2 i j) 1 0 ≤
        ∑ i ∈ Finset.Icc (Int.fdiv (-(pyInt (2 * R2 / px) + 1)) 2)
            (Int.fdiv (pyInt (2 * R2 / px) + 1) 2),
          ∑ j ∈ Finset.Icc (Int.fdiv (-(pyInt (2 * R2 / py) + 1)) 2)
              (Int.fdiv (pyInt (2 * R2 / py) + 1) 2),
            @ite ℕ (V1 i j) (d1 i j) 1 0 :=
        Finset.sum_le_sum fun i _ => Finset.sum_le_sum fun j _ =>
          ite_one_zero_le _ _ (himp i j)
      _ ≤ _ := by
        refine le_trans (Finset.sum_le_sum fun i _ =>
          Finset.sum_le_sum_of_subset_of_nonneg hsubJ fun _ _ _ => ?_)
          (Finset.sum_le_sum_of_subset_of_nonneg hsubI fun _ _ _ =>
            Finset.sum_nonneg fun _ _ => ?_)
        · positivity
        · positivity

/-- Claim C8: with everything else fixed (die size, scribe lanes, wafer
diameter, validation policy, notch configuration, yield), a larger edge
exclusion never yields more dies in the standard engine, on either
enumeration path and for every validation policy. -/
theorem claim_C8_edge_exclusion_monotone (p : Params) (e1 e2 : ℚ) (m : Method)
    (opt : Bool) (hdx : 0 < p.dieX) (hdy : 0 < p.dieY)
    (hsx : 0 ≤ p.scribeX) (hsy : 0 ≤ p.scribeY) (he : e1 ≤ e2) (r1 r2 : ResultQ)
    (h1 : stdCalculate (stdValidAt { p with edge := e1 } m)
      (stdDec { p with edge := e1 } m) opt { p with edge := e1 } = .ok r1)
    (h2 : stdCalculate (stdValidAt { p with edge := e2 } m)
      (stdDec { p with edge := e2 } m) opt { p with edge := e2 } = .ok r2) :
    r2.totalDies ≤ r1.totalDies := by
  rw [stdCalculate] at h1 h2
  split_ifs at h1 with hg1 hg2 hg3
  split_ifs at h2 with hk1 hk2 hk3
  obtain rfl := Except.ok.inj h1
  obtain rfl := Except.ok.inj h2
  have hR2 : 0 < p.diameter / 2 - e2 := by
    push_neg at hk1
    exact hk1
  have hR12 : p.diameter / 2 - e2 ≤ p.diameter / 2 - e1 := by linarith
  have hpx : 0 < p.pitchX := by
    rw [Params.pitchX]
    positivity
  have hpy : 0 < p.pitchY := by
    rw [Params.pitchY]
    positivity
  show stdCount opt (stdValidAt { p with edge := e2 } m)
      (stdDec { p with edge := e2 } m) (p.diameter / 2 - e2) p.pitchX p.pitchY ≤
    stdCount opt (stdValidAt { p with edge := e1 } m)
      (stdDec { p with edge := e1 } m) (p.diameter / 2 - e1) p.pitchX p.pitchY
  refine stdCount_mono_R opt _ _ _ _ _ _ hpx hpy hR2 hR12 ?_
  intro i j hv
  show stdAccept p.notch (p.diameter / 2) p.notchDepth (p.diameter / 2 - e1) m
    ((i : ℚ) * p.pitchX) ((j : ℚ) * p.pitchY) p.pitchX p.pitchY
  exact stdAccept_mono_R p.notch (p.diameter / 2) p.notchDepth
    (p.diameter / 2 - e1) (p.diameter / 2 - e2) m _ _ _ _
    hpx.le hpy.le hR2.le hR12 hv

/-- Witness for C8 at the concrete run `paramsC1` with equal edge
exclusions. -/
theorem claim_C8_edge_exclusion_monotone_witness :
    ((0 : ℚ) < paramsC1.dieX ∧ (0 : ℚ) < paramsC1.dieY ∧
     (0 : ℚ) ≤ paramsC1.scribeX ∧ (0 : ℚ) ≤ paramsC1.scribeY ∧ (0 : ℚ) ≤ 0) ∧
    stdCalculate (stdValidAt { paramsC1 with edge := 0 } .corner)
      (stdDec { paramsC1 with edge := 0 } .corner) false
      { paramsC1 with edge := 0 } = .ok ⟨1, 1⟩ ∧
    (1 : ℕ) ≤ 1 :=
  ⟨⟨by norm_num [paramsC1], by norm_num [paramsC1], by norm_num [paramsC1],
    by norm_num [paramsC1], le_refl 0⟩, stdRunC1,
   claim_C8_edge_exclusion_monotone paramsC1 0 0 .corner false
     (by norm_num [paramsC1]) (by norm_num [paramsC1]) (by norm_num [paramsC1])
     (by norm_num [paramsC1]) (le_refl 0) ⟨1, 1⟩ ⟨1, 1⟩ stdRunC1 stdRunC1⟩

/-- Indicator congruence under propositional equivalence. -/
lemma ind_congr {P Q : Prop} (dP : Decidable P) (dQ : Decidable Q) (h : P ↔ Q) :
    @ite ℕ P dP 1 0 = @ite ℕ Q dQ 1 0 := by
  by_cases hP : P
  · rw [if_pos hP, if_pos (h.mp hP)]
  · rw [if_neg hP, if_neg (fun hq => hP (h.mpr hq))]

/-- Splitting a symmetric integer interval sum at zero. -/
lemma sum_Icc_split_zero (g : ℤ → ℕ) (K : ℤ) :
    ∑ i ∈ Finset.Icc (-K) K, g i =
      (∑ i ∈ Finset.Icc (-K) (-1), g i) + ∑ i ∈ Finset.Icc 0 K, g i := by
  have hdis : Disjoint (Finset.Icc (-K) (-1)) (Finset.Icc (0 : ℤ) K) := by
    rw [Finset.disjoint_left]
    intro a ha hb
    simp only [Finset.mem_Icc] at ha hb
    omega
  have hun : Finset.Icc (-K) K = Finset.Icc (-K) (-1) ∪ Finset.Icc 0 K := by
    ext x
    simp only [Finset.mem_Icc, Finset.mem_union]
    omega
  rw [hun, Finset.sum_union hdis]

/-- Reflecting the negative half of an interval sum. -/
lemma sum_Icc_neg_half (g : ℤ → ℕ) (K : ℤ) (hg : ∀ i, g (-i) = g i) :
    ∑ i ∈ Finset.Icc (-K) (-1), g i = ∑ i ∈ Finset.Icc 1 K, g i := by
  have hmap : Finset.Icc (-K) (-1) =
      Finset.map ⟨fun i => -i, neg_injective⟩ (Finset.Icc 1 K) := by
    ext x
    simp only [Finset.mem_map, Finset.mem_Icc, Function.Embedding.coeFn_mk]
    constructor
    · intro hx
      exact ⟨-x, by omega, by ring⟩
    · rintro ⟨a, ha, rfl⟩
      omega
  rw [hmap, Finset.sum_map]
  simp only [Function.Embedding.coeFn_mk]
  exact Finset.sum_congr rfl fun i _ => hg i

/-- Peeling zero off the nonnegative half of an interval sum. -/
lemma sum_Icc_zero_split (g : ℤ → ℕ) (K : ℤ) (hK : 0 ≤ K) :
    ∑ i ∈ Finset.Icc 0 K, g i = g 0 + ∑ i ∈ Finset.Icc 1 K, g i := by
  have h : Finset.Icc (0 : ℤ) K = insert 0 (Finset.Icc 1 K) := by
    ext x
    simp only [Finset.mem_Icc, Finset.mem_insert]
    omega
  rw [h, Finset.sum_insert (by simp [Finset.mem_Icc])]

/-- A symmetric interval sum equals the center term plus twice the positive
half. -/
lemma sum_Icc_reflect (g : ℤ → ℕ) (K : ℤ) (hK : 0 ≤ K) (hg : ∀ i, g (-i) = g i) :
    ∑ i ∈ Finset.Icc (-K) K, g i = g 0 + 2 * ∑ i ∈ Finset.Icc 1 K, g i := by
  rw [sum_Icc_split_zero g K, sum_Icc_neg_half g K hg, sum_Icc_zero_split g K hK]
  ring

/-- Mirror symmetry of the point test in x. -/
lemma isPointInWafer_neg_x (R x y : ℚ) :
    isPointInWafer R (-x) y = isPointInWafer R x y := by
  rw [isPointInWafer, isPointInWafer, show (-x) * (-x) = x * x from by ring]

/-- Mirror symmetry of the point test in y. -/
lemma isPointInWafer_neg_y (R x y : ℚ) :
    isPointInWafer R x (-y) = isPointInWafer R x y := by
  rw [isPointInWafer, isPointInWafer, show (-y) * (-y) = y * y from by ring]

/-- Mirror symmetry of the corner validator in x. -/
lemma validateCorner_neg_x (R cx cy w h : ℚ) :
    validateCorner R (-cx) cy w h = validateCorner R cx cy w h := by
  rw [Bool.eq_iff_iff]
  simp only [validateCorner, isPointInWafer, Bool.and_eq_true, decide_eq_true_eq]
  constructor
  · rintro ⟨⟨⟨h1, h2⟩, h3⟩, h4⟩
    refine ⟨⟨⟨?_, ?_⟩, ?_⟩, ?_⟩ <;> nlinarith [h1, h2, h3, h4]
  · rintro ⟨⟨⟨h1, h2⟩, h3⟩, h4⟩
    refine ⟨⟨⟨?_, ?_⟩, ?_⟩, ?_⟩ <;> nlinarith [h1, h2, h3, h4]

/-- Mirror symmetry of the corner validator in y. -/
lemma validateCorner_neg_y (R cx cy w h : ℚ) :
    validateCorner R cx (-cy) w h = validateCorner R cx cy w h := by
  rw [Bool.eq_iff_iff]
  simp only [validateCorner, isPointInWafer, Bool.and_eq_true, decide_eq_true_eq]
  constructor
  · rintro ⟨⟨⟨h1, h2⟩, h3⟩, h4⟩
    refine ⟨⟨⟨?_, ?_⟩, ?_⟩, ?_⟩ <;> nlinarith [h1, h2, h3, h4]
  · rintro ⟨⟨⟨h1, h2⟩, h3⟩, h4⟩
    refine ⟨⟨⟨?_, ?_⟩, ?_⟩, ?_⟩ <;> nlinarith [h1, h2, h3, h4]

/-- Mirror symmetry of the strict validator in x: the eight test points of the
mirrored rectangle are the mirrors of the original eight, permuted. -/
lemma validateStrict_neg_x (R cx cy w h : ℚ) :
    validateStrict R (-cx) cy w h = validateStrict R cx cy w h := by
  rw [validateStrict, validateStrict,
    show -cx - w / 2 = -(cx + w / 2) from by ring,
    show -cx + w / 2 = -(cx - w / 2) from by ring]
  simp only [isPointInWafer_neg_x]
  rw [Bool.eq_iff_iff]
  simp only [Bool.and_eq_true]
  tauto

/-- Mirror symmetry of the strict validator in y. -/
lemma validateStrict_neg_y (R cx cy w h : ℚ) :
    validateStrict R cx (-cy) w h = validateStrict R cx cy w h := by
  rw [validateStrict, validateStrict,
    show -cy - h / 2 = -(cy + h / 2) from by ring,
    show -cy + h / 2 = -(cy - h / 2) from by ring]
  simp only [isPointInWafer_neg_y]
  rw [Bool.eq_iff_iff]
  simp only [Bool.and_eq_true]
  tauto

/-- Four corners inside also put the four edge midpoints inside (convexity),
so the corner check implies the strict eight-point check. -/
lemma corner_implies_strict (R cx cy w h : ℚ)
    (hc : validateCorner R cx cy w h = true) : validateStrict R cx cy w h = true := by
  simp only [validateCorner, isPointInWafer, Bool.and_eq_true, decide_eq_true_eq] at hc
  obtain ⟨⟨⟨h1, h2⟩, h3⟩, h4⟩ := hc
  simp only [validateStrict, isPointInWafer, Bool.and_eq_true, decide_eq_true_eq]
  refine ⟨⟨⟨⟨⟨⟨⟨h1, h2⟩, h3⟩, h4⟩, ?_⟩, ?_⟩, ?_⟩, ?_⟩ <;>
    nlinarith [h1, h2, h3, h4]

/-- A squared bound `(i*c)^2 <= R^2` pins the integer index below `floor (R/c)`. -/
lemma abs_le_floor_of_le_sq (i : ℤ) (c R : ℚ) (hc : 0 < c) (hR : 0 ≤ R)
    (h : ((i : ℚ) * c) * ((i : ℚ) * c) ≤ R * R) : |i| ≤ ⌊R / c⌋ := by
  refine Int.le_floor.mpr ?_
  have hsq : (|(i : ℚ)| * c) * (|(i : ℚ)| * c) = ((i : ℚ) * c) * ((i : ℚ) * c) := by
    rw [show (|(i : ℚ)| * c) * (|(i : ℚ)| * c) = |(i : ℚ)| * |(i : ℚ)| * (c * c) by ring,
      abs_mul_abs_self]
    ring
  have habs : |(i : ℚ)| * c ≤ R := by
    nlinarith [hsq, h, mul_nonneg (abs_nonneg (i : ℚ)) hc.le, hR,
      sq_nonneg (|(i : ℚ)| * c - R)]
  rw [le_div_iff hc, Int.cast_abs]
  exact habs

/-- Doubling under the floor. -/
lemma floor_two_mul_ge (q : ℚ) : 2 * ⌊q⌋ ≤ ⌊2 * q⌋ := by
  refine Int.le_floor.mpr ?_
  push_cast
  linarith [Int.floor_le q]

/-- A nonzero `maxJRow` satisfies its defining inequality. -/
lemma maxJRow_spec {S py : ℚ} {fuel : ℕ} (h0 : maxJRow S py fuel ≠ 0) :
    ((maxJRow S py fuel : ℚ) * py) * ((maxJRow S py fuel : ℚ) * py) ≤ S := by
  simp only [maxJRow] at h0 ⊢
  exact Nat.findGreatest_of_ne_zero rfl h0

/-- Any in-fuel row index satisfying the inequality is below `maxJRow`. -/
lemma le_maxJRow {S py : ℚ} {fuel j : ℕ} (hj : j ≤ fuel)
    (hP : ((j : ℚ) * py) * ((j : ℚ) * py) ≤ S) : j ≤ maxJRow S py fuel := by
  simp only [maxJRow]
  exact Nat.le_findGreatest hj hP

/-- A doubly symmetric full-grid sum equals the first-quadrant sum weighted by
the 1/2/4 symmetry multiplicities. -/
lemma sum_sym_eq_quad_sum (f : ℤ → ℤ → ℕ) (Kx Ky : ℤ) (hKx : 0 ≤ Kx) (hKy : 0 ≤ Ky)
    (hfx : ∀ i j, f (-i) j = f i j) (hfy : ∀ i j, f i (-j) = f i j) :
    ∑ i ∈ Finset.Icc (-Kx) Kx, ∑ j ∈ Finset.Icc (-Ky) Ky, f i j =
      ∑ i ∈ Finset.Icc 0 Kx, ∑ j ∈ Finset.Icc 0 Ky, symMult i j * f i j := by
  have hG : ∀ i, ∑ j ∈ Finset.Icc (-Ky) Ky, f i j
      = f i 0 + 2 * ∑ j ∈ Finset.Icc 1 Ky, f i j := fun i =>
    sum_Icc_reflect (f i) Ky hKy (hfy i)
  have houter : ∑ i ∈ Finset.Icc (-Kx) Kx, ∑ j ∈ Finset.Icc (-Ky) Ky, f i j
      = (∑ j ∈ Finset.Icc (-Ky) Ky, f 0 j)
        + 2 * ∑ i ∈ Finset.Icc 1 Kx, ∑ j ∈ Finset.Icc (-Ky) Ky, f i j :=
    sum_Icc_reflect (fun i => ∑ j ∈ Finset.Icc (-Ky) Ky, f i j) Kx hKx
      (fun i => Finset.sum_congr rfl fun j _ => hfx i j)
  have hsum1 : ∑ i ∈ Finset.Icc 1 Kx, ∑ j ∈ Finset.Icc (-Ky) Ky, f i j
      = (∑ i ∈ Finset.Icc 1 Kx, f i 0)
        + 2 * ∑ i ∈ Finset.Icc 1 Kx, ∑ j ∈ Finset.Icc 1 Ky, f i j := by
    rw [Finset.sum_congr rfl (fun i _ => hG i), Finset.sum_add_distrib, Finset.mul_sum]
  have hH0 : ∑ j ∈ Finset.Icc (0 : ℤ) Ky, symMult 0 j * f 0 j
      = f 0 0 + 2 * ∑ j ∈ Finset.Icc 1 Ky, f 0 j := by
    rw [sum_Icc_zero_split (fun j => symMult 0 j * f 0 j) Ky hKy]
    congr 1
    · simp [symMult]
    · rw [Finset.mul_sum]
      refine Finset.sum_congr rfl fun j hj => ?_
      have hj0 : j ≠ 0 := by
        simp only [Finset.mem_Icc] at hj
        omega
      simp [symMult, hj0]
  have hHi : ∀ i ∈ Finset.Icc (1 : ℤ) Kx,
      ∑ j ∈ Finset.Icc (0 : ℤ) Ky, symMult i j * f i j
        = 2 * f i 0 + 4 * ∑ j ∈ Finset.Icc 1 Ky, f i j := by
    intro i hi
    have hi0 : i ≠ 0 := by
      simp only [Finset.mem_Icc] at hi
      omega
    rw [sum_Icc_zero_split (fun j => symMult i j * f i j) Ky hKy]
    congr 1
    · simp [symMult, hi0]
    · rw [Finset.mul_sum]
      refine Finset.sum_congr rfl fun j hj => ?_
      have hj0 : j ≠ 0 := by
        simp only [Finset.mem_Icc] at hj
        omega
      simp [symMult, hi0, hj0]
  rw [houter, hG 0, hsum1,
    sum_Icc_zero_split (fun i => ∑ j ∈ Finset.Icc (0 : ℤ) Ky, symMult i j * f i j)
      Kx hKx, hH0, Finset.sum_congr rfl hHi, Finset.sum_add_distrib,
    ← Finset.mul_sum, ← Finset.mul_sum]
  ring

/-- Master enumeration lemma: for a mirror-symmetric validity predicate whose
accepted centers all lie inside the circle of radius `R`, the traditional
full-grid count of the standard engine coincides with the quadrant-symmetric
count of the optimized engine. -/
lemma full_grid_eq_quad (V : ℤ → ℤ → Prop) (dV : ∀ i j, Decidable (V i j))
    (R px py : ℚ) (hpx : 0 < px) (hpy : 0 < py) (hR : 0 < R)
    (hsymx : ∀ i j, V (-i) j ↔ V i j) (hsymy : ∀ i j, V i (-j) ↔ V i j)
    (hloc : ∀ i j, V i j →
      ((i : ℚ) * px) * ((i : ℚ) * px) + ((j : ℚ) * py) * ((j : ℚ) * py) ≤ R * R) :
    stdCount false V dV R px py = optQuadCount V dV R px py := by
  have hKx0 : 0 ≤ ⌊R / px⌋ := Int.floor_nonneg.mpr (by positivity)
  have hKy0 : 0 ≤ ⌊R / py⌋ := Int.floor_nonneg.mpr (by positivity)
  have hbi : ∀ i j, V i j → |i| ≤ ⌊R / px⌋ := fun i j hv =>
    abs_le_floor_of_le_sq i px R hpx hR.le
      (by nlinarith [hloc i j hv, mul_self_nonneg ((j : ℚ) * py)])
  have hbj : ∀ i j, V i j → |j| ≤ ⌊R / py⌋ := fun i j hv =>
    abs_le_floor_of_le_sq j py R hpy hR.le
      (by nlinarith [hloc i j hv, mul_self_nonneg ((i : ℚ) * px)])
  have hMx : 2 * ⌊R / px⌋ ≤ pyInt (2 * R / px) := by
    rw [show 2 * R / px = 2 * (R / px) by ring, pyInt_ofNonneg (by positivity)]
    exact floor_two_mul_ge (R / px)
  have hMy : 2 * ⌊R / py⌋ ≤ pyInt (2 * R / py) := by
    rw [show 2 * R / py = 2 * (R / py) by ring, pyInt_ofNonneg (by positivity)]
    exact floor_two_mul_ge (R / py)
  have hsubI : Finset.Icc (-⌊R / px⌋) ⌊R / px⌋ ⊆
      Finset.Icc (Int.fdiv (-(pyInt (2 * R / px) + 1)) 2)
        (Int.fdiv (pyInt (2 * R / px) + 1) 2) := by
    apply Finset.Icc_subset_Icc
    · rw [Int.fdiv_eq_ediv _ (by norm_num)]
      omega
    · rw [Int.fdiv_eq_ediv _ (by norm_num)]
      omega
  have hsubJ : Finset.Icc (-⌊R / py⌋) ⌊R / py⌋ ⊆
      Finset.Icc (Int.fdiv (-(pyInt (2 * R / py) + 1)) 2)
        (Int.fdiv (pyInt (2 * R / py) + 1) 2) := by
    apply Finset.Icc_subset_Icc
    · rw [Int.fdiv_eq_ediv _ (by norm_num)]
      omega
    · rw [Int.fdiv_eq_ediv _ (by norm_num)]
      omega
  have hstd : stdCount false V dV R px py
      = ∑ i ∈ Finset.Icc (-⌊R / px⌋) ⌊R / px⌋,
          ∑ j ∈ Finset.Icc (-⌊R / py⌋) ⌊R / py⌋, @ite ℕ (V i j) (dV i j) 1 0 := by
    rw [stdCount, if_neg Bool.false_ne_true]
    calc
      ∑ i ∈ Finset.Icc (Int.fdiv (-(pyInt (2 * R / px) + 1)) 2)
          (Int.fdiv (pyInt (2 * R / px) + 1) 2),
        ∑ j ∈ Finset.Icc (Int.fdiv (-(pyInt (2 * R / py) + 1)) 2)
            (Int.fdiv (pyInt (2 * R / py) + 1) 2),
          @ite ℕ (V i j) (dV i j) 1 0
        = ∑ i ∈ Finset.Icc (-⌊R / px⌋) ⌊R / px⌋,
            ∑ j ∈ Finset.Icc (Int.fdiv (-(pyInt (2 * R / py) + 1)) 2)
              (Int.fdiv (pyInt (2 * R / py) + 1) 2),
              @ite ℕ (V i j) (dV i j) 1 0 := by
          refine (Finset.sum_subset hsubI fun i _ hi => ?_).symm
          refine Finset.sum_eq_zero fun j _ => ?_
          exact if_neg fun hv => hi (Finset.mem_Icc.mpr (abs_le.mp (hbi i j hv)))
      _ = _ := by
          refine Finset.sum_congr rfl fun i _ => ?_
          refine (Finset.sum_subset hsubJ fun j _ hj => ?_).symm
          exact if_neg fun hv => hj (Finset.mem_Icc.mpr (abs_le.mp (hbj i j hv)))
  have hquad : optQuadCount V dV R px py
      = ∑ i ∈ Finset.Icc (0 : ℤ) ⌊R / px⌋, ∑ j ∈ Finset.Icc (0 : ℤ) ⌊R / py⌋,
          symMult i j * @ite ℕ (V i j) (dV i j) 1 0 := by
    rw [optQuadCount, pyInt_ofNonneg (show (0 : ℚ) ≤ R / px by positivity),
      pyInt_ofNonneg (show (0 : ℚ) ≤ R / py by positivity)]
    calc
      ∑ i ∈ Finset.Icc (0 : ℤ) (⌊R / px⌋ + 1),
        (if R * R - ((i : ℚ) * px) * ((i : ℚ) * px) < 0 then 0
         else ∑ j ∈ Finset.Icc (0 : ℤ)
             ((maxJRow (R * R - ((i : ℚ) * px) * ((i : ℚ) * px)) py
               (⌊R / py⌋ + 1).toNat : ℕ) : ℤ),
           symMult i j * @ite ℕ (V i j) (dV i j) 1 0)
        = ∑ i ∈ Finset.Icc (0 : ℤ) ⌊R / px⌋,
            (if R * R - ((i : ℚ) * px) * ((i : ℚ) * px) < 0 then 0
             else ∑ j ∈ Finset.Icc (0 : ℤ)
                 ((maxJRow (R * R - ((i : ℚ) * px) * ((i : ℚ) * px)) py
                   (⌊R / py⌋ + 1).toNat : ℕ) : ℤ),
               symMult i j * @ite ℕ (V i j) (dV i j) 1 0) := by
          refine (Finset.sum_subset (Finset.Icc_subset_Icc le_rfl (by omega))
            fun i hi hni => ?_).symm
          have hi' : ⌊R / px⌋ < i := by
            simp only [Finset.mem_Icc] at hi hni
            omega
          split_ifs with hneg
          · rfl
          · refine Finset.sum_eq_zero fun j _ => ?_
            have hnv : ¬ V i j := fun hv => by
              have h1 := hbi _ _ hv
              rw [abs_le] at h1
              omega
            rw [if_neg hnv, mul_zero]
      _ = _ := by
          refine Finset.sum_congr rfl fun i hi => ?_
          simp only [Finset.mem_Icc] at hi
          have h2 : (0 : ℚ) ≤ (i : ℚ) := by exact_mod_cast hi.1
          have h1 : (i : ℚ) ≤ R / px :=
            le_trans (by exact_mod_cast hi.2 : (i : ℚ) ≤ (⌊R / px⌋ : ℚ))
              (Int.floor_le _)
          have h3 : (i : ℚ) * px ≤ R := by
            have h4 := mul_le_mul_of_nonneg_right h1 hpx.le
            rwa [div_mul_cancel₀ R (ne_of_gt hpx)] at h4
          have hiq : ((i : ℚ) * px) * ((i : ℚ) * px) ≤ R * R := by
            nlinarith [mul_nonneg h2 hpx.le]
          rw [if_neg (not_lt.mpr (by linarith))]
          have hSle : R * R - ((i : ℚ) * px) * ((i : ℚ) * px) ≤ R * R := by
            linarith [mul_self_nonneg ((i : ℚ) * px)]
          have hmJle : ((maxJRow (R * R - ((i : ℚ) * px) * ((i : ℚ) * px)) py
              (⌊R / py⌋ + 1).toNat : ℕ) : ℤ) ≤ ⌊R / py⌋ := by
            by_cases h0 : maxJRow (R * R - ((i : ℚ) * px) * ((i : ℚ) * px)) py
                (⌊R / py⌋ + 1).toNat = 0
            · rw [h0]
              exact_mod_cast hKy0
            · have habs := abs_le_floor_of_le_sq
                ((maxJRow (R * R - ((i : ℚ) * px) * ((i : ℚ) * px)) py
                  (⌊R / py⌋ + 1).toNat : ℕ) : ℤ) py R hpy hR.le
                (by push_cast; nlinarith [maxJRow_spec h0, hSle])
              exact (abs_le.mp habs).2
          refine Finset.sum_subset (Finset.Icc_subset_Icc le_rfl hmJle)
            fun j hj hnj => ?_
          simp only [Finset.mem_Icc] at hj hnj
          have hnv : ¬ V i j := fun hv => by
            have hjq : ((j : ℚ) * py) * ((j : ℚ) * py)
                ≤ R * R - ((i : ℚ) * px) * ((i : ℚ) * px) := by
              have h5 := hloc i j hv
              linarith
            have hjt : j.toNat ≤ (⌊R / py⌋ + 1).toNat := by omega
            have hc : ((j.toNat : ℚ)) = ((j : ℚ)) := by
              have h6 : ((j.toNat : ℤ)) = j := Int.toNat_of_nonneg hj.1
              exact_mod_cast congrArg (fun z : ℤ => (z : ℚ)) h6
            have hPj : ((j.toNat : ℚ) * py) * ((j.toNat : ℚ) * py)
                ≤ R * R - ((i : ℚ) * px) * ((i : ℚ) * px) := by
              rw [hc]
              exact hjq
            have hle := le_maxJRow hjt hPj
            omega
          rw [if_neg hnv, mul_zero]
  rw [hstd, hquad]
  exact sum_sym_eq_quad_sum (fun i j => @ite ℕ (V i j) (dV i j) 1 0)
    ⌊R / px⌋ ⌊R / py⌋ hKx0 hKy0
    (fun i j => ind_congr _ _ (hsymx i j)) (fun i j => ind_congr _ _ (hsymy i j))

/-- With no notch and a point-based policy, the standard per-position validity
is mirror-symmetric in the column index. -/
lemma stdValidAt_neg_i (p : Params) (m : Method)
    (hm : m = .center ∨ m = .corner ∨ m = .strict) (hn : p.notch = .none_) (i j : ℤ) :
    stdValidAt p m (-i) j ↔ stdValidAt p m i j := by
  have hc : (((-i : ℤ) : ℚ)) * p.pitchX = -((i : ℚ) * p.pitchX) := by
    push_cast
    ring
  rcases hm with rfl | rfl | rfl
  · simp only [stdValidAt, stdAccept, hn, rectIntersectsNotch, hc, validateCenter,
      isPointInWafer_neg_x]
  · simp only [stdValidAt, stdAccept, hn, rectIntersectsNotch, hc,
      validateCorner_neg_x]
  · simp only [stdValidAt, stdAccept, hn, rectIntersectsNotch, hc,
      validateStrict_neg_x]

/-- With no notch and a point-based policy, the standard per-position validity
is mirror-symmetric in the row index. -/
lemma stdValidAt_neg_j (p : Params) (m : Method)
    (hm : m = .center ∨ m = .corner ∨ m = .strict) (hn : p.notch = .none_) (i j : ℤ) :
    stdValidAt p m i (-j) ↔ stdValidAt p m i j := by
  have hc : (((-j : ℤ) : ℚ)) * p.pitchY = -((j : ℚ) * p.pitchY) := by
    push_cast
    ring
  rcases hm with rfl | rfl | rfl
  · simp only [stdValidAt, stdAccept, hn, rectIntersectsNotch, hc, validateCenter,
      isPointInWafer_neg_y]
  · simp only [stdValidAt, stdAccept, hn, rectIntersectsNotch, hc,
      validateCorner_neg_y]
  · simp only [stdValidAt, stdAccept, hn, rectIntersectsNotch, hc,
      validateStrict_neg_y]

/-- Every position accepted by a point-based policy has its center inside the
effective-radius circle. -/
lemma stdValidAt_loc (p : Params) (m : Method)
    (hm : m = .center ∨ m = .corner ∨ m = .strict) (hn : p.notch = .none_) (i j : ℤ)
    (h : stdValidAt p m i j) :
    ((i : ℚ) * p.pitchX) * ((i : ℚ) * p.pitchX)
      + ((j : ℚ) * p.pitchY) * ((j : ℚ) * p.pitchY) ≤ p.effR * p.effR := by
  have hcen : validateCenter p.effR ((i : ℚ) * p.pitchX) ((j : ℚ) * p.pitchY) = true := by
    rcases hm with rfl | rfl | rfl
    · exact h.2
    · exact corner_implies_center _ _ _ _ _ h.2
    · exact corner_implies_center _ _ _ _ _ (strict_implies_corner _ _ _ _ _ h.2)
  simpa [validateCenter, isPointInWafer, decide_eq_true_eq] using hcen

/-- With zero scribe lanes the validated rectangles of the two engines
coincide (the pitch cell is the bare die), and for the point-based policies
the two per-position verdicts agree. -/
lemma std_opt_validAt_iff (p : Params) (m : Method)
    (hm : m = .center ∨ m = .corner ∨ m = .strict)
    (hsx : p.scribeX = 0) (hsy : p.scribeY = 0) (hn : p.notch = .none_)
    (hdx : 0 < p.dieX) (hdy : 0 < p.dieY) (i j : ℤ) :
    stdValidAt p m i j ↔ optValidAt p m i j := by
  have hwx : p.dieX / 1000 = p.pitchX := by
    rw [Params.pitchX, hsx]
    ring
  have hwy : p.dieY / 1000 = p.pitchY := by
    rw [Params.pitchY, hsy]
    ring
  have hpx : 0 < p.pitchX := by
    rw [← hwx]
    positivity
  have hpy : 0 < p.pitchY := by
    rw [← hwy]
    positivity
  rcases hm with rfl | rfl | rfl
  · simp only [stdValidAt, optValidAt, stdAccept, optAccept, hn, rectIntersectsNotch,
      Bool.not_false, Bool.true_and]
    constructor
    · rintro ⟨-, h⟩
      exact h
    · intro h
      exact ⟨by trivial, h⟩
  · simp only [stdValidAt, optValidAt, stdAccept, optAccept, hn, rectIntersectsNotch,
      Bool.not_false, Bool.true_and, hwx, hwy]
    rw [optValidateCorner_eq_validateCorner _ _ _ _ _ hpx.le hpy.le]
    constructor
    · rintro ⟨-, h⟩
      exact h
    · intro h
      exact ⟨by trivial, h⟩
  · simp only [stdValidAt, optValidAt, stdAccept, optAccept, optValidateStrict, hn,
      rectIntersectsNotch, Bool.not_false, Bool.true_and, hwx, hwy]
    constructor
    · rintro ⟨-, h⟩
      exact strict_implies_corner _ _ _ _ _ h
    · intro h
      exact ⟨by trivial, corner_implies_strict _ _ _ _ _ h⟩

/-- The optimized quadrant count only depends on the validity predicate up to
propositional equivalence. -/
lemma optQuadCount_congr {V1 V2 : ℤ → ℤ → Prop}
    (d1 : ∀ i j, Decidable (V1 i j)) (d2 : ∀ i j, Decidable (V2 i j))
    (R px py : ℚ) (hiff : ∀ i j, V1 i j ↔ V2 i j) :
    optQuadCount V1 d1 R px py = optQuadCount V2 d2 R px py :=
  le_antisymm (optQuadCount_mono d1 d2 R px py fun i j => (hiff i j).mp)
    (optQuadCount_mono d2 d1 R px py fun i j => (hiff i j).mpr)

/-- Claim C1 (amended): the two engines agree on the total die count when the
scribe lanes are zero (so the pitch cell the standard engine validates is the
bare die the optimized engine validates), there is no notch, and the policy is
point-based (CENTER/CORNER/STRICT).  In general the claimed equality fails —
see `claim_C1_counterexample` — because the engines validate different
rectangles; under these hypotheses the traditional full-grid enumeration and
the quadrant-symmetric enumeration with 1/2/4 multiplicities count the same
set of dies. -/
theorem claim_C1_symmetry_equiv_amended (p : Params) (m : Method)
    (hm : m = .center ∨ m = .corner ∨ m = .strict)
    (hsx : p.scribeX = 0) (hsy : p.scribeY = 0) (hn : p.notch = .none_)
    (r s : ResultQ)
    (h1 : stdCalculate (stdValidAt p m) (stdDec p m) false p = .ok r)
    (h2 : optCalculate (optValidAt p m) (optDec p m) p = .ok s) :
    r.totalDies = s.totalDies := by
  have herr : optValidationErrors p = [] := by
    by_contra hne
    rw [optCalculate, if_pos hne] at h2
    exact Except.noConfusion h2
  have hple : ¬(p.pitchX ≤ 0 ∨ p.pitchY ≤ 0) := by
    intro hc
    rw [optCalculate, if_neg (fun hcon => hcon herr), if_pos hc] at h2
    exact Except.noConfusion h2
  rw [stdCalculate] at h1
  split_ifs at h1 with hg1 hg2 hg3
  obtain rfl := Except.ok.inj h1
  rw [optCalculate_ok_noNotch _ _ p herr hple hg1 hg2 hg3 hn] at h2
  obtain rfl := Except.ok.inj h2
  push_neg at hple
  have hpx : 0 < p.pitchX := hple.1
  have hpy : 0 < p.pitchY := hple.2
  have hR : 0 < p.diameter / 2 - p.edge := by
    push_neg at hg1
    exact hg1
  have hdx : 0 < p.dieX := by
    have h5 := hpx
    rw [Params.pitchX, hsx] at h5
    linarith
  have hdy : 0 < p.dieY := by
    have h5 := hpy
    rw [Params.pitchY, hsy] at h5
    linarith
  have hloc : ∀ i j, stdValidAt p m i j →
      ((i : ℚ) * p.pitchX) * ((i : ℚ) * p.pitchX)
        + ((j : ℚ) * p.pitchY) * ((j : ℚ) * p.pitchY)
        ≤ (p.diameter / 2 - p.edge) * (p.diameter / 2 - p.edge) :=
    fun i j hv => stdValidAt_loc p m hm hn i j hv
  show stdCount false (stdValidAt p m) (stdDec p m) (p.diameter / 2 - p.edge)
      p.pitchX p.pitchY
    = optQuadCount (optValidAt p m) (optDec p m) (p.diameter / 2 - p.edge)
      p.pitchX p.pitchY
  rw [full_grid_eq_quad (stdValidAt p m) (stdDec p m) (p.diameter / 2 - p.edge)
    p.pitchX p.pitchY hpx hpy hR (stdValidAt_neg_i p m hm hn)
    (stdValidAt_neg_j p m hm hn) hloc]
  exact optQuadCount_congr (stdDec p m) (optDec p m) _ _ _
    (std_opt_validAt_iff p m hm hsx hsy hn hdx hdy)

/-- Zero-scribe no-notch configuration on which both engines agree:
die 2000 × 2000 µm, no scribe lanes (pitch = bare die = 2 mm), wafer diameter
6 mm, no edge exclusion, yield 100, corner policy. -/
def paramsC1s : Params :=
  { dieX := 2000, dieY := 2000, scribeX := 0, scribeY := 0,
    diameter := 6, edge := 0, yieldPct := 100, notch := .none_, notchDepth := 1 }

/-- Full-grid run of the standard engine on `paramsC1s`: 1 die. -/
lemma stdRunC1s :
    stdCalculate (stdValidAt paramsC1s .corner) (stdDec paramsC1s .corner) false
      paramsC1s = .ok ⟨1, 1⟩ := by
  rw [stdCalculate_ok _ _ _ _ (by norm_num [paramsC1s]) (by norm_num [paramsC1s])
    (by norm_num [paramsC1s])]
  have hcount : stdCount false (stdValidAt paramsC1s .corner) (stdDec paramsC1s .corner)
      (paramsC1s.diameter / 2 - paramsC1s.edge) paramsC1s.pitchX paramsC1s.pitchY = 1 := by
    have hpx : paramsC1s.pitchX = 2 := by norm_num [paramsC1s, Params.pitchX]
    have hpy : paramsC1s.pitchY = 2 := by norm_num [paramsC1s, Params.pitchY]
    have hR : paramsC1s.diameter / 2 - paramsC1s.edge = 3 := by norm_num [paramsC1s]
    rw [stdCount, if_neg (by simp), hpx, hpy, hR]
    have hb : pyInt (2 * (3 : ℚ) / 2) + 1 = 4 := by
      rw [pyInt_ofNonneg (by norm_num)]
      norm_num
    rw [hb, show Finset.Icc (Int.fdiv (-(4 : ℤ)) 2) (Int.fdiv (4 : ℤ) 2) =
      ({-2, -1, 0, 1, 2} : Finset ℤ) from by decide]
    norm_num [stdValidAt, stdAccept, paramsC1s, Params.effR, Params.waferR,
      Params.pitchX, Params.pitchY, rectIntersectsNotch, validateCorner,
      isPointInWafer, decide_eq_true_eq, Finset.sum_insert, Finset.mem_insert,
      Finset.filter_insert, Finset.filter_singleton]
  rw [hcount]
  have hy : pyInt (((1 : ℕ) : ℚ) * (paramsC1s.yieldPct / 100)) = 1 := by
    rw [show (((1 : ℕ) : ℚ) * (paramsC1s.yieldPct / 100)) = ((1 : ℤ) : ℚ) by
      norm_num [paramsC1s], pyInt_intCast]
  rw [hy]

/-- Quadrant-symmetric run of the optimized engine on `paramsC1s`: 1 die (the
bare die equals the 2 mm pitch cell). -/
lemma optRunC1s :
    optCalculate (optValidAt paramsC1s .corner) (optDec paramsC1s .corner) paramsC1s =
      .ok ⟨1, 1⟩ := by
  rw [optCalculate_ok_noNotch _ _ _ (by norm_num [optValidationErrors, paramsC1s])
    (by norm_num [paramsC1s, Params.pitchX, Params.pitchY])
    (by norm_num [paramsC1s]) (by norm_num [paramsC1s]) (by norm_num [paramsC1s]) rfl]
  have hcount : optQuadCount (optValidAt paramsC1s .corner) (optDec paramsC1s .corner)
      (paramsC1s.diameter / 2 - paramsC1s.edge) paramsC1s.pitchX paramsC1s.pitchY = 1 := by
    have hpx : paramsC1s.pitchX = 2 := by norm_num [paramsC1s, Params.pitchX]
    have hpy : paramsC1s.pitchY = 2 := by norm_num [paramsC1s, Params.pitchY]
    have hR : paramsC1s.diameter / 2 - paramsC1s.edge = 3 := by norm_num [paramsC1s]
    rw [optQuadCount, hpx, hpy, hR]
    have hb : pyInt ((3 : ℚ) / 2) + 1 = 2 := by
      rw [pyInt_ofNonneg (by norm_num)]
      norm_num
    rw [hb, iccZ_0_2]
    norm_num [maxJRow, Nat.findGreatest, symMult, optValidAt, optAccept, paramsC1s,
      Params.effR, Params.waferR, Params.pitchX, Params.pitchY, rectIntersectsNotch,
      optValidateCorner, validateCorner, validateCenter, isPointInWafer,
      decide_eq_true_eq, iccZ_0_1, Finset.sum_insert, Finset.mem_insert,
      Finset.filter_insert, Finset.filter_singleton]
  rw [hcount]
  have hy : pyInt (((1 : ℕ) : ℚ) * (paramsC1s.yieldPct / 100)) = 1 := by
    rw [show (((1 : ℕ) : ℚ) * (paramsC1s.yieldPct / 100)) = ((1 : ℤ) : ℚ) by
      norm_num [paramsC1s], pyInt_intCast]
  rw [hy]

/-- Witness for the amended C1 on the zero-scribe run `paramsC1s`: both
engines return 1 die. -/
theorem claim_C1_symmetry_equiv_amended_witness :
    ((Method.corner = .center ∨ Method.corner = .corner ∨ Method.corner = .strict) ∧
     paramsC1s.scribeX = 0 ∧ paramsC1s.scribeY = 0 ∧ paramsC1s.notch = .none_) ∧
    stdCalculate (stdValidAt paramsC1s .corner) (stdDec paramsC1s .corner) false
      paramsC1s = .ok ⟨1, 1⟩ ∧
    optCalculate (optValidAt paramsC1s .corner) (optDec paramsC1s .corner) paramsC1s =
      .ok ⟨1, 1⟩ ∧
    ((⟨1, 1⟩ : ResultQ)).totalDies = ((⟨1, 1⟩ : ResultQ)).totalDies :=
  ⟨⟨Or.inr (Or.inl rfl), rfl, rfl, rfl⟩, stdRunC1s, optRunC1s,
   claim_C1_symmetry_equiv_amended paramsC1s .corner (Or.inr (Or.inl rfl)) rfl rfl rfl
     ⟨1, 1⟩ ⟨1, 1⟩ stdRunC1s optRunC1s⟩

end DPW
